import Mathlib

/-!
Verification of the incremental-update job (`update_job.py`) of the ETL
repository.  The Python source is shallowly embedded: JSON-ish payload
values become the inductive `Value`, pandas/SQL row transformations become
pure functions on association lists, the DuckDB tables become lists of
`StoredRow`, and the HTTP layer is abstracted by response oracles.
Timestamps produced by `CURRENT_TIMESTAMP` are modelled by an explicit
`now : Int` parameter (one SQL statement sees one value of
`CURRENT_TIMESTAMP`).
-/

/-- A JSON-ish scalar or nested value, as fetched from the upstream API.
Numbers are modelled by `Int` (floating point payload fields are never
inspected by the job beyond being stored). -/
inductive Value where
  | null : Value
  | str (s : String) : Value
  | int (n : Int) : Value
  | bool (b : Bool) : Value
  | list (vs : List Value) : Value
  | dict (kvs : List (String × Value)) : Value
deriving Repr

/-- Python truthiness (`if not detail: continue` and
`if c.get('also_known_as')` checks). -/
def Value.truthy : Value → Bool
  | .null => false
  | .str s => !s.isEmpty
  | .int n => n != 0
  | .bool b => b
  | .list vs => !vs.isEmpty
  | .dict kvs => !kvs.isEmpty

mutual
/-- Python `str(v)`: rendering used when the job coerces list/dict payload
fields to text (`str(v) if isinstance(v, (list, dict)) else v`). -/
def pyStr : Value → String
  | .null => "None"
  | .str s => s
  | .int n => toString n
  | .bool b => if b then "True" else "False"
  | .list vs => "[" ++ pyStrList vs ++ "]"
  | .dict kvs => "\x7b" ++ pyStrDict kvs ++ "\x7d"

/-- Python `repr(v)`, used for elements inside a list/dict rendering
(string elements are quoted). -/
def pyRepr : Value → String
  | .str s => String.singleton (Char.ofNat 39) ++ s ++ String.singleton (Char.ofNat 39)
  | .null => "None"
  | .int n => toString n
  | .bool b => if b then "True" else "False"
  | .list vs => "[" ++ pyStrList vs ++ "]"
  | .dict kvs => "\x7b" ++ pyStrDict kvs ++ "\x7d"

def pyStrList : List Value → String
  | [] => ""
  | [v] => pyRepr v
  | v :: rest => pyRepr v ++ ", " ++ pyStrList rest

def pyStrDict : List (String × Value) → String
  | [] => ""
  | [(k, v)] => pyRepr (.str k) ++ ": " ++ pyRepr v
  | (k, v) :: rest => pyRepr (.str k) ++ ": " ++ pyRepr v ++ ", " ++ pyStrDict rest
end

/-- The per-column coercion applied to every DataFrame column:
`df[c].apply(lambda v: str(v) if isinstance(v, (list, dict)) else v)`. -/
def coerceVal : Value → Value
  | .list vs => .str (pyStr (.list vs))
  | .dict kvs => .str (pyStr (.dict kvs))
  | v => v

/-- `v` is a scalar (not a Python list or dict). -/
def Value.isScalar : Value → Bool
  | .list _ => false
  | .dict _ => false
  | _ => true

-- ---------------------------------------------------------------------
-- Date guard (`clean_date` / `clean_release_date` in the source)
-- ---------------------------------------------------------------------

def digitVal (c : Char) : Nat := c.toNat - 48

/-- Days in a month, Gregorian calendar (as validated by
`pd.to_datetime(..., format="%Y-%m-%d", errors="raise")`). -/
def daysInMonth (y m : Nat) : Nat :=
  if m = 2 then
    if y % 4 = 0 ∧ (y % 100 ≠ 0 ∨ y % 400 = 0) then 29 else 28
  else if m = 4 ∨ m = 6 ∨ m = 9 ∨ m = 11 then 30
  else 31

/-- A plain zero-padded `YYYY-MM-DD` calendar date, as accepted by
`pd.to_datetime(val, format="%Y-%m-%d", errors="raise")`.  (pandas
additionally rejects dates outside the `Timestamp` range and tolerates
some non-padded inputs; neither corner is load-bearing for the claims,
which only concern values that do *not* parse.) -/
def isValidYMD (s : String) : Bool :=
  match s.toList with
  | [y1, y2, y3, y4, c1, m1, m2, c2, d1, d2] =>
    if c1 = '-' ∧ c2 = '-' ∧
       y1.isDigit ∧ y2.isDigit ∧ y3.isDigit ∧ y4.isDigit ∧
       m1.isDigit ∧ m2.isDigit ∧ d1.isDigit ∧ d2.isDigit then
      let y := digitVal y1 * 1000 + digitVal y2 * 100 + digitVal y3 * 10 + digitVal y4
      let m := digitVal m1 * 10 + digitVal m2
      let d := digitVal d1 * 10 + digitVal d2
      decide (1 ≤ m ∧ m ≤ 12 ∧ 1 ≤ d ∧ d ≤ daysInMonth y m)
    else false
  | _ => false

/-- `clean_date` from `upsert_table_from_rows`: `pd.isna(val)` or the empty
string become `None`; a value that fails
`pd.to_datetime(val, format="%Y-%m-%d", errors="raise")` becomes `None`;
a valid date string is returned unchanged.  Non-string scalars make
`pd.to_datetime` raise, hence become `None`. -/
def clean_date : Value → Value
  | .null => .null
  | .str s => if s = "" then .null else if isValidYMD s then .str s else .null
  | _ => .null

-- ---------------------------------------------------------------------
-- Row normalisation (DataFrame build, coercion, date guard, reindex)
-- ---------------------------------------------------------------------

/-- A raw row: a Python dict, keys in insertion order. -/
def Row := List (String × Value)

/-- Whether the source applies the date guard to column `c` of table `tn`
after reindexing (movies: `release_date`; tv_shows: `last_air_date`). -/
def isDateGuardCol (tn c : String) : Bool :=
  (tn = "movies" ∧ c = "release_date") ∨ (tn = "tv_shows" ∧ c = "last_air_date")

/-- The value the normalisation pipeline of `upsert_table_from_rows`
produces for canonical column `c` of one row: DataFrame lookup (missing
key becomes NaN/None), list/dict coercion, the pre-reindex
`clean_release_date` pass for movies, then the post-reindex `clean_date`
pass for the date-guarded columns.  (`clean_date` is idempotent, so the
movies `release_date` column going through the guard twice, as in the
source, equals one pass; both passes are spelled out here.) -/
def normVal (tn : String) (row : Row) (c : String) : Value :=
  let v0 := coerceVal ((List.lookup c row).getD .null)
  let v1 := if tn = "movies" ∧ c = "release_date" then clean_date v0 else v0
  if isDateGuardCol tn c then clean_date v1 else v1

/-- `df.reindex(columns=canonical_cols, fill_value=None)` at the row
level: exactly the canonical columns, in canonical order. -/
def normRow (tn : String) (cols : List String) (row : Row) : Row :=
  cols.map (fun c => (c, normVal tn row c))

/-- Key-column determination of `upsert_table_from_rows`: the supplied
`key_col` if it is a canonical column, else `id` / `movie_id` / `tv_id`
fallback, else no key. -/
def keyOf (keyCol : Option String) (cols : List String) : Option String :=
  match keyCol with
  | some k =>
    if k ∈ cols then some k
    else if "id" ∈ cols then some "id"
    else if "movie_id" ∈ cols then some "movie_id"
    else if "tv_id" ∈ cols then some "tv_id"
    else none
  | none =>
    if "id" ∈ cols then some "id"
    else if "movie_id" ∈ cols then some "movie_id"
    else if "tv_id" ∈ cols then some "tv_id"
    else none

-- ---------------------------------------------------------------------
-- SQL value equality (three-valued logic collapsed to "matches")
-- ---------------------------------------------------------------------

/-- SQL equality as used by `IN (SELECT ...)` and `JOIN ... ON`:
a comparison involving NULL never matches.  Only scalar values ever reach
a SQL comparison (normalisation coerces lists/dicts to strings), so
nested values are conservatively treated as non-matching. -/
def sqlEq : Value → Value → Bool
  | .null, _ => false
  | _, .null => false
  | .str a, .str b => a = b
  | .int a, .int b => a = b
  | .bool a, .bool b => a = b
  | _, _ => false

-- ---------------------------------------------------------------------
-- Stored tables and the Upsert Engine
-- ---------------------------------------------------------------------

/-- One stored row of a target relation: the canonical data columns plus
the `inserted_at` / `updated_at` bookkeeping columns. -/
structure StoredRow where
  data : Row
  insertedAt : Int
  updatedAt : Int

/-- The key value of a stored row under key column `k`. -/
def rowKey (k : String) (r : StoredRow) : Value :=
  (List.lookup k r.data).getD .null

/-- The key value of a (normalised) batch row under key column `k`. -/
def batchKey (k : String) (t : Row) : Value :=
  (List.lookup k t).getD .null

/-- Observable side effects of the storage phase. -/
inductive Effect where
  | previewCSV (table : String)
  | deleteRows (table : String)
  | insertRows (table : String) (n : Nat)
  | setWatermark
deriving DecidableEq, Repr

structure UpsertResult where
  table : List StoredRow
  effects : List Effect

/-- The stored rows one batch row `t` contributes through the
`INSERT ... SELECT ... FROM tmp_df t LEFT JOIN old_inserted_at o ON
t.key = o.key` statement: `t` joins every captured `(key, inserted_at)`
pair with a matching key; with no match it yields a single row with
`COALESCE(NULL, CURRENT_TIMESTAMP)`, i.e. `now`, as `inserted_at`;
`updated_at` is `now` unconditionally. -/
def chunkRows (k : String) (oldIns : List (Value × Int)) (now : Int)
    (t : Row) : List StoredRow :=
  let ms := oldIns.filter (fun o => sqlEq (batchKey k t) o.1)
  if ms.isEmpty then [⟨t, now, now⟩]
  else ms.map (fun o => ⟨t, o.2, now⟩)

/-- All rows produced by the INSERT statement, in batch scan order. -/
def joinedNewRows (k : String) (oldIns : List (Value × Int)) (now : Int)
    (ndf : List Row) : List StoredRow :=
  ndf.flatMap (chunkRows k oldIns now)

/-- The `CREATE TEMP TABLE old_inserted_at AS SELECT o.key, o.inserted_at`
projection of a set of stored rows. -/
def pairsOf (k : String) (rs : List StoredRow) : List (Value × Int) :=
  rs.map (fun o => (rowKey k o, o.insertedAt))

/-- The `WHERE o.key IN (SELECT DISTINCT t.key FROM tmp_df t)` predicate. -/
def hitKeys (k : String) (keys : List Value) (o : StoredRow) : Bool :=
  keys.any (fun kv => sqlEq (rowKey k o) kv)

/-- The keyed delete-then-insert core of `upsert_table_from_rows`:
capture `(key, inserted_at)` for rows matching the batch keys, delete
those rows, insert the batch joined against the captured pairs. -/
def upsertKeyed (tn : String) (k : String) (ndf : List Row)
    (table : List StoredRow) (now : Int) : UpsertResult :=
  let keys := ndf.map (batchKey k)
  let oldIns := pairsOf k (table.filter (hitKeys k keys))
  let remaining := table.filter (fun o => !hitKeys k keys o)
  let newRows := joinedNewRows k oldIns now ndf
  ⟨remaining ++ newRows,
   [.deleteRows tn, .insertRows tn newRows.length]⟩

/-- `upsert_table_from_rows(con, rows, table_name, canonical_cols,
key_col, dry_run)` over a table state `table` at time `now`:
empty batch returns immediately; the batch is normalised
(coercion, date guard, reindex); in dry-run mode only a preview CSV is
written; otherwise, with a key column, existing `(key, inserted_at)`
pairs for the batch's keys are captured, matching rows are deleted, and
the batch is inserted with preserved `inserted_at`; with no key column
the batch is appended with fresh timestamps. -/
def upsert_table_from_rows (tableName : String) (cols : List String)
    (rows : List Row) (keyCol : Option String) (dryRun : Bool)
    (table : List StoredRow) (now : Int) : UpsertResult :=
  if rows.isEmpty then ⟨table, []⟩
  else
    let ndf := rows.map (normRow tableName cols)
    if dryRun then ⟨table, [.previewCSV tableName]⟩
    else
      match keyOf keyCol cols with
      | some k => upsertKeyed tableName k ndf table now
      | none =>
        let newRows := ndf.map (fun t => StoredRow.mk t now now)
        ⟨table ++ newRows, [.insertRows tableName newRows.length]⟩

-- canonical column lists (verbatim from the source) --

def MOVIES_COLS : List String :=
  ["id", "adult", "backdrop_path", "belongs_to_collection", "budget",
   "genres", "homepage", "imdb_id", "origin_country", "original_language",
   "original_title", "overview", "popularity", "poster_path",
   "production_companies", "production_countries", "release_date",
   "revenue", "runtime", "spoken_languages", "status", "tagline",
   "title", "video", "vote_average", "vote_count"]

def MOVIE_CAST_COLS : List String :=
  ["movie_id", "person_id", "name", "credit_id", "character", "cast_order",
   "gender", "profile_path", "known_for_department", "popularity",
   "original_name", "cast_id"]

def MOVIE_CREW_COLS : List String :=
  ["movie_id", "person_id", "name", "credit_id", "gender", "profile_path",
   "known_for_department", "popularity", "original_name", "adult",
   "department", "job"]

def TV_SHOWS_COLS : List String :=
  ["id", "episode_run_time", "homepage", "in_production", "last_air_date",
   "number_of_episodes", "number_of_seasons", "origin_country",
   "production_countries", "status", "type"]

def TV_CAST_COLS : List String :=
  ["tv_id", "person_id", "name", "credit_id", "character", "cast_order",
   "gender", "profile_path", "known_for_department", "popularity",
   "original_name", "roles", "total_episode_count", "cast_id",
   "also_known_as"]

-- ---------------------------------------------------------------------
-- Basic lemmas about lookup / normalisation
-- ---------------------------------------------------------------------

theorem lookup_map_self {f : String → Value} {cols : List String} {c : String}
    (h : c ∈ cols) :
    List.lookup c (cols.map (fun c => (c, f c))) = some (f c) := by
  induction cols with
  | nil => cases h
  | cons x xs ih =>
    by_cases hx : c = x
    · subst hx; simp [List.lookup]
    · have hb : (c == x) = false := beq_eq_false_iff_ne.mpr hx
      have h' : c ∈ xs := by
        rcases List.mem_cons.mp h with h | h
        · exact absurd h hx
        · exact h
      simp [List.lookup, hb, ih h']

theorem lookup_map_none {f : String → Value} {cols : List String} {c : String}
    (h : c ∉ cols) :
    List.lookup c (cols.map (fun c => (c, f c))) = none := by
  induction cols with
  | nil => rfl
  | cons x xs ih =>
    have hx : c ≠ x := fun hc => h (hc ▸ List.mem_cons_self x xs)
    have hb : (c == x) = false := beq_eq_false_iff_ne.mpr hx
    have hxs : c ∉ xs := fun hc => h (List.mem_cons_of_mem x hc)
    simp [List.lookup, hb, ih hxs]

theorem lookup_normRow {tn : String} {cols : List String} {row : Row} {c : String}
    (h : c ∈ cols) :
    List.lookup c (normRow tn cols row) = some (normVal tn row c) :=
  lookup_map_self h

theorem clean_date_good (v : Value) :
    clean_date v = .null ∨ ∃ s, clean_date v = .str s ∧ isValidYMD s = true := by
  cases v with
  | str s =>
    by_cases h0 : s = ""
    · left; simp [clean_date, h0]
    · by_cases hv : isValidYMD s
      · right; exact ⟨s, by simp [clean_date, h0, hv], hv⟩
      · left; simp [clean_date, h0, hv]
  | null => left; rfl
  | int n => left; rfl
  | bool b => left; rfl
  | list vs => left; rfl
  | dict kvs => left; rfl

theorem coerceVal_isScalar (v : Value) : (coerceVal v).isScalar = true := by
  cases v <;> rfl

theorem clean_date_isScalar (v : Value) : (clean_date v).isScalar = true := by
  rcases clean_date_good v with h | ⟨s, h, _⟩ <;> rw [h] <;> rfl

theorem normVal_isScalar (tn : String) (row : Row) (c : String) :
    (normVal tn row c).isScalar = true := by
  simp only [normVal]
  split_ifs <;> simp [clean_date_isScalar, coerceVal_isScalar]

theorem normVal_of_lookup_none {tn : String} {row : Row} {c : String}
    (h : List.lookup c row = none) : normVal tn row c = .null := by
  simp only [normVal, h, Option.getD_none]
  split_ifs <;> simp [clean_date, coerceVal]

theorem normVal_dateGuard_good {tn c : String} (hg : isDateGuardCol tn c = true)
    (row : Row) :
    normVal tn row c = .null ∨
      ∃ s, normVal tn row c = .str s ∧ isValidYMD s = true := by
  have h : normVal tn row c =
      clean_date (if tn = "movies" ∧ c = "release_date" then
        clean_date (coerceVal ((List.lookup c row).getD .null))
      else coerceVal ((List.lookup c row).getD .null)) := by
    simp [normVal, hg]
  rw [h]
  exact clean_date_good _

theorem chunkRows_mem_eq {k : String} {oldIns : List (Value × Int)}
    {now : Int} {t : Row} {r : StoredRow}
    (hr : r ∈ chunkRows k oldIns now t) : r.data = t ∧ r.updatedAt = now := by
  simp only [chunkRows] at hr
  cases hms : (List.filter (fun o => sqlEq (batchKey k t) o.1) oldIns).isEmpty with
  | true =>
    rw [if_pos hms] at hr
    rcases List.mem_singleton.mp hr with rfl; exact ⟨rfl, rfl⟩
  | false =>
    rw [if_neg (by simp [hms])] at hr
    rcases List.mem_map.mp hr with ⟨o, _, rfl⟩; exact ⟨rfl, rfl⟩

theorem joinedNewRows_data_mem {k : String} {oldIns : List (Value × Int)}
    {now : Int} {ndf : List Row} {r : StoredRow}
    (hr : r ∈ joinedNewRows k oldIns now ndf) : ∃ t ∈ ndf, r.data = t := by
  rcases List.mem_flatMap.mp hr with ⟨t, ht, hmem⟩
  exact ⟨t, ht, (chunkRows_mem_eq hmem).1⟩

/-- Every row of the table after a live upsert is either a pre-existing
row or carries a normalised batch row as its data. -/
theorem upsert_mem_structure {tn : String} {cols : List String} {rows : List Row}
    {keyCol : Option String} {table : List StoredRow} {now : Int} {r : StoredRow}
    (hr : r ∈ (upsert_table_from_rows tn cols rows keyCol false table now).table) :
    r ∈ table ∨ ∃ row ∈ rows, r.data = normRow tn cols row := by
  by_cases hrows : rows.isEmpty
  · left
    simpa [upsert_table_from_rows, hrows] using hr
  · simp only [upsert_table_from_rows, hrows, if_false, Bool.false_eq_true] at hr
    rcases hk : keyOf keyCol cols with _ | k <;> rw [hk] at hr
    · rcases List.mem_append.mp hr with h | h
      · exact Or.inl h
      · rcases List.mem_map.mp h with ⟨t, ht, rfl⟩
        rcases List.mem_map.mp ht with ⟨row, hrow, rfl⟩
        exact Or.inr ⟨row, hrow, rfl⟩
    · simp only [upsertKeyed] at hr
      rcases List.mem_append.mp hr with h | h
      · exact Or.inl (List.mem_of_mem_filter h)
      · rcases joinedNewRows_data_mem h with ⟨t, ht, hdata⟩
        rcases List.mem_map.mp ht with ⟨row, hrow, rfl⟩
        exact Or.inr ⟨row, hrow, hdata⟩

theorem upsert_dateGuard_mem {tn : String} {cols : List String} {rows : List Row}
    {keyCol : Option String} {table : List StoredRow} {now : Int} {c : String}
    (hg : isDateGuardCol tn c = true) (hc : c ∈ cols) :
    ∀ r ∈ (upsert_table_from_rows tn cols rows keyCol false table now).table,
      r ∈ table ∨ List.lookup c r.data = some .null ∨
        ∃ s, List.lookup c r.data = some (.str s) ∧ isValidYMD s = true := by
  intro r hr
  rcases upsert_mem_structure hr with h | ⟨row, _, hdata⟩
  · exact Or.inl h
  · right
    rw [hdata, lookup_normRow hc]
    rcases normVal_dateGuard_good hg row with h | ⟨s, h, hv⟩
    · left; rw [h]
    · right; exact ⟨s, by rw [h], hv⟩

/-- C5: for every movies-relation batch processed live by the Upsert
Engine, any row the upsert leaves in the table is either an untouched
pre-existing row or stores a `release_date` that is NULL or a valid plain
`YYYY-MM-DD` date — never a malformed literal such as `"0000-00-00"` or
`""` (both shown invalid); the same guard holds for `last_air_date` on
the `tv_shows` relation. -/
theorem c5_date_guard (rows : List Row) (keyCol : Option String)
    (table : List StoredRow) (now : Int) :
    (∀ r ∈ (upsert_table_from_rows "movies" MOVIES_COLS rows keyCol false table now).table,
        r ∈ table ∨ List.lookup "release_date" r.data = some .null ∨
          ∃ s, List.lookup "release_date" r.data = some (.str s) ∧ isValidYMD s = true) ∧
    (∀ r ∈ (upsert_table_from_rows "tv_shows" TV_SHOWS_COLS rows keyCol false table now).table,
        r ∈ table ∨ List.lookup "last_air_date" r.data = some .null ∨
          ∃ s, List.lookup "last_air_date" r.data = some (.str s) ∧ isValidYMD s = true) ∧
    isValidYMD "0000-00-00" = false ∧ isValidYMD "" = false :=
  ⟨upsert_dateGuard_mem (by decide) (by decide),
   upsert_dateGuard_mem (by decide) (by decide),
   by decide, by decide⟩

/-- Witness for C5: a movies batch whose `release_date` is the literal
`"0000-00-00"`, upserted into an empty table, yields a stored row whose
`release_date` is NULL or a valid date (here: NULL). -/
theorem c5_date_guard_witness :
    (⟨normRow "movies" MOVIES_COLS [("id", Value.int 1), ("release_date", Value.str "0000-00-00")], 5, 5⟩ : StoredRow) ∈ ([] : List StoredRow) ∨
      List.lookup "release_date"
        (normRow "movies" MOVIES_COLS [("id", Value.int 1), ("release_date", Value.str "0000-00-00")]) = some .null ∨
      ∃ s, List.lookup "release_date"
        (normRow "movies" MOVIES_COLS [("id", Value.int 1), ("release_date", Value.str "0000-00-00")]) = some (.str s) ∧
        isValidYMD s = true := by
  have h := (c5_date_guard [[("id", Value.int 1), ("release_date", Value.str "0000-00-00")]]
    (some "id") [] 5).1
  refine h ⟨normRow "movies" MOVIES_COLS [("id", Value.int 1), ("release_date", Value.str "0000-00-00")], 5, 5⟩ ?_
  have e : (upsert_table_from_rows "movies" MOVIES_COLS
      [[("id", Value.int 1), ("release_date", Value.str "0000-00-00")]]
      (some "id") false [] 5).table =
      [⟨normRow "movies" MOVIES_COLS [("id", Value.int 1), ("release_date", Value.str "0000-00-00")], 5, 5⟩] := rfl
  rw [e]
  exact List.mem_singleton_self _

/-- C7: calling the Upsert Engine with an empty row list is a complete
no-op for every relation: the `if not rows: return` guard fires before
any delete, insert or preview, so the table (rows, counts and both
timestamp columns) is returned unchanged and no effect is emitted. -/
theorem c7_empty_batch_noop (tableName : String) (cols : List String)
    (keyCol : Option String) (dryRun : Bool) (table : List StoredRow) (now : Int) :
    upsert_table_from_rows tableName cols [] keyCol dryRun table now = ⟨table, []⟩ ∧
    (upsert_table_from_rows tableName cols [] keyCol dryRun table now).table.length
      = table.length :=
  ⟨rfl, rfl⟩

theorem lookup_filter_contains {row : Row} {cols : List String} {c : String}
    (h : c ∈ cols) :
    List.lookup c (row.filter (fun kv => cols.contains kv.1)) = List.lookup c row := by
  induction row with
  | nil => rfl
  | cons kv rest ih =>
    rcases kv with ⟨k, v⟩
    by_cases hk : k ∈ cols
    · rw [List.filter_cons_of_pos (by simpa using hk)]
      by_cases hck : c = k
      · subst hck; simp [List.lookup]
      · have hb : (c == k) = false := beq_eq_false_iff_ne.mpr hck
        simp only [List.lookup, hb]
        simpa using ih
    · have hck : c ≠ k := fun hc => hk (hc ▸ h)
      have hb : (c == k) = false := beq_eq_false_iff_ne.mpr hck
      rw [List.filter_cons_of_neg (by simpa using hk)]
      simp only [List.lookup, hb]
      simpa using ih

theorem normVal_congr {tn : String} {row row' : Row} {c : String}
    (h : List.lookup c row' = List.lookup c row) :
    normVal tn row' c = normVal tn row c := by
  simp [normVal, h]

theorem map_fst_map_pair (cols : List String) (f : String → Value) :
    (cols.map (fun c => (c, f c))).map Prod.fst = cols := by
  induction cols with
  | nil => rfl
  | cons x xs ih => simp [ih]

/-- C6: for every raw payload row and target relation, the normalisation
of `upsert_table_from_rows` (list/dict coercion + `reindex` on the
canonical columns) yields a row whose column set is exactly the canonical
list, with NULL for absent source fields, no column for unexpected source
fields (removing them changes nothing), only scalar (stringified) values,
and, for the non-date-guarded columns, exactly the coerced source value. -/
theorem c6_row_normalizer (tn : String) (cols : List String) (row : Row) :
    ((normRow tn cols row).map Prod.fst = cols) ∧
    (∀ c ∈ cols, List.lookup c row = none →
       List.lookup c (normRow tn cols row) = some .null) ∧
    (∀ f, f ∉ cols → List.lookup f (normRow tn cols row) = none) ∧
    (normRow tn cols (row.filter (fun kv => cols.contains kv.1)) = normRow tn cols row) ∧
    (∀ c ∈ cols, ∀ v, List.lookup c (normRow tn cols row) = some v → v.isScalar = true) ∧
    (∀ c ∈ cols, ¬ isDateGuardCol tn c = true →
       List.lookup c (normRow tn cols row) =
         some (coerceVal ((List.lookup c row).getD .null))) := by
  refine ⟨?_, ?_, ?_, ?_, ?_, ?_⟩
  · exact map_fst_map_pair cols _
  · intro c hc hnone
    rw [lookup_normRow hc, normVal_of_lookup_none hnone]
  · intro f hf
    exact lookup_map_none hf
  · refine List.map_congr_left (fun c hc => ?_)
    rw [normVal_congr (lookup_filter_contains hc)]
  · intro c hc v hv
    rw [lookup_normRow hc] at hv
    cases hv
    exact normVal_isScalar tn row c
  · intro c hc hng
    rw [lookup_normRow hc]
    have hg : isDateGuardCol tn c = false := by
      simpa using hng
    have hm : ¬ (tn = "movies" ∧ c = "release_date") := by
      intro hand
      have : isDateGuardCol tn c = true := by
        simp [isDateGuardCol, hand.1, hand.2]
      simp [this] at hg
    simp [normVal, hg, hm]

/-- Witness for C6 on the tv_shows relation: a payload with an id, an
unexpected field and a list-valued field normalises to exactly the
canonical columns, with the absent `homepage` NULL, the unexpected field
dropped, and the list field stored as its coerced string. -/
theorem c6_row_normalizer_witness :
    ((normRow "tv_shows" TV_SHOWS_COLS
        [("id", Value.int 7), ("unexpected", Value.str "x"),
         ("origin_country", Value.list [Value.str "US"])]).map Prod.fst = TV_SHOWS_COLS) ∧
    (List.lookup "homepage" (normRow "tv_shows" TV_SHOWS_COLS
        [("id", Value.int 7), ("unexpected", Value.str "x"),
         ("origin_country", Value.list [Value.str "US"])]) = some .null) ∧
    (List.lookup "unexpected" (normRow "tv_shows" TV_SHOWS_COLS
        [("id", Value.int 7), ("unexpected", Value.str "x"),
         ("origin_country", Value.list [Value.str "US"])]) = none) ∧
    (List.lookup "origin_country" (normRow "tv_shows" TV_SHOWS_COLS
        [("id", Value.int 7), ("unexpected", Value.str "x"),
         ("origin_country", Value.list [Value.str "US"])]) =
      some (coerceVal (Value.list [Value.str "US"]))) := by
  have h := c6_row_normalizer "tv_shows" TV_SHOWS_COLS
    [("id", Value.int 7), ("unexpected", Value.str "x"),
     ("origin_country", Value.list [Value.str "US"])]
  refine ⟨h.1, h.2.1 "homepage" (by decide) rfl, h.2.2.1 "unexpected" (by decide), ?_⟩
  have h6 := h.2.2.2.2.2 "origin_country" (by decide) (by decide)
  rw [h6]
  rfl

-- ---------------------------------------------------------------------
-- C1: idempotence of the keyed upsert
-- ---------------------------------------------------------------------

theorem sqlEq_imp_eq {a b : Value} (h : sqlEq a b = true) : a = b := by
  cases a <;> cases b <;> simp_all [sqlEq]

/-- `updated_at` refresh of a stored row. -/
def updTo (now : Int) (r : StoredRow) : StoredRow := ⟨r.data, r.insertedAt, now⟩

theorem chunkRows_ne_nil (k : String) (oldIns : List (Value × Int)) (now : Int)
    (t : Row) : chunkRows k oldIns now t ≠ [] := by
  simp only [chunkRows]
  split
  · simp
  · next h =>
    rw [Ne, List.map_eq_nil_iff]
    intro hnil
    rw [hnil] at h
    exact h rfl

theorem chunkRows_drop_left {k : String} {t : Row} {A B : List (Value × Int)}
    (now : Int) (hA : ∀ p ∈ A, sqlEq (batchKey k t) p.1 = false) :
    chunkRows k (A ++ B) now t = chunkRows k B now t := by
  have h : A.filter (fun o => sqlEq (batchKey k t) o.1) = [] :=
    List.filter_eq_nil_iff.mpr (fun p hp => by simp [hA p hp])
  simp only [chunkRows, List.filter_append, h, List.nil_append]

theorem chunkRows_drop_right {k : String} {t : Row} {A B : List (Value × Int)}
    (now : Int) (hB : ∀ p ∈ B, sqlEq (batchKey k t) p.1 = false) :
    chunkRows k (A ++ B) now t = chunkRows k A now t := by
  have h : B.filter (fun o => sqlEq (batchKey k t) o.1) = [] :=
    List.filter_eq_nil_iff.mpr (fun p hp => by simp [hB p hp])
  simp only [chunkRows, List.filter_append, h, List.append_nil]

theorem pairsOf_fst_chunk {k : String} {oldIns : List (Value × Int)} {now : Int}
    {t : Row} : ∀ p ∈ pairsOf k (chunkRows k oldIns now t), p.1 = batchKey k t := by
  intro p hp
  rcases List.mem_map.mp hp with ⟨r, hr, rfl⟩
  have hd := (chunkRows_mem_eq hr).1
  simp [rowKey, batchKey, hd]

/-- Re-upserting the pairs captured from one batch row's own chunk
reproduces that chunk with a refreshed `updated_at`. -/
theorem chunkRows_pairs_self {k : String} {oldIns : List (Value × Int)}
    {now1 now2 : Int} {t : Row}
    (hs : sqlEq (batchKey k t) (batchKey k t) = true) :
    chunkRows k (pairsOf k (chunkRows k oldIns now1 t)) now2 t
      = (chunkRows k oldIns now1 t).map (updTo now2) := by
  set C := chunkRows k oldIns now1 t with hC
  have hfilter : (pairsOf k C).filter (fun o => sqlEq (batchKey k t) o.1)
      = pairsOf k C := by
    refine List.filter_eq_self.mpr (fun p hp => ?_)
    rw [pairsOf_fst_chunk p hp]
    exact hs
  have hne : pairsOf k C ≠ [] := by
    rw [Ne, pairsOf, List.map_eq_nil_iff]
    exact chunkRows_ne_nil k oldIns now1 t
  have hempty : (pairsOf k C).isEmpty = false := by
    rcases h : (pairsOf k C).isEmpty with _ | _
    · rfl
    · exact absurd (List.isEmpty_iff.mp h) hne
  rw [chunkRows, hfilter]
  simp only [hempty, Bool.false_eq_true, if_false]
  rw [pairsOf, List.map_map]
  refine List.map_congr_left (fun r hr => ?_)
  have hd := (chunkRows_mem_eq hr).1
  simp [updTo, hd]

/-- Replaying a batch against the rows it itself inserted reproduces those
rows with a refreshed `updated_at`, provided the batch keys are self-
matching (non-NULL) and pairwise distinct. -/
theorem joined_refresh {k : String} (ndf : List Row) (oldIns : List (Value × Int))
    (now1 now2 : Int)
    (hself : ∀ t ∈ ndf, sqlEq (batchKey k t) (batchKey k t) = true)
    (hnodup : (ndf.map (batchKey k)).Nodup) :
    joinedNewRows k (pairsOf k (joinedNewRows k oldIns now1 ndf)) now2 ndf
      = (joinedNewRows k oldIns now1 ndf).map (updTo now2) := by
  induction ndf with
  | nil => rfl
  | cons t rest ih =>
    have hst : sqlEq (batchKey k t) (batchKey k t) = true :=
      hself t (List.mem_cons_self _ _)
    have hnodup' : (batchKey k t :: rest.map (batchKey k)).Nodup := by
      simpa only [List.map_cons] using hnodup
    have hnd := List.nodup_cons.mp hnodup'
    have hnotmem : batchKey k t ∉ rest.map (batchKey k) := hnd.1
    have hselfrest : ∀ t' ∈ rest, sqlEq (batchKey k t') (batchKey k t') = true :=
      fun t' ht' => hself t' (List.mem_cons_of_mem _ ht')
    have hBfst : ∀ p ∈ pairsOf k (joinedNewRows k oldIns now1 rest),
        ∃ t' ∈ rest, p.1 = batchKey k t' := by
      intro p hp
      rcases List.mem_map.mp hp with ⟨r, hr, rfl⟩
      rcases joinedNewRows_data_mem hr with ⟨t', ht', hd⟩
      exact ⟨t', ht', by simp [rowKey, batchKey, hd]⟩
    have hdropB : ∀ p ∈ pairsOf k (joinedNewRows k oldIns now1 rest),
        sqlEq (batchKey k t) p.1 = false := by
      intro p hp
      rcases hBfst p hp with ⟨t', ht', hp1⟩
      rcases h : sqlEq (batchKey k t) p.1 with _ | _
      · rfl
      · exfalso
        apply hnotmem
        rw [sqlEq_imp_eq h, hp1]
        exact List.mem_map_of_mem _ ht'
    have hdropA : ∀ t' ∈ rest, ∀ p ∈ pairsOf k (chunkRows k oldIns now1 t),
        sqlEq (batchKey k t') p.1 = false := by
      intro t' ht' p hp
      rcases h : sqlEq (batchKey k t') p.1 with _ | _
      · rfl
      · exfalso
        apply hnotmem
        rw [← pairsOf_fst_chunk p hp, ← sqlEq_imp_eq h]
        exact List.mem_map_of_mem _ ht'
    calc joinedNewRows k (pairsOf k (joinedNewRows k oldIns now1 (t :: rest))) now2 (t :: rest)
        = chunkRows k (pairsOf k (chunkRows k oldIns now1 t)
            ++ pairsOf k (joinedNewRows k oldIns now1 rest)) now2 t
          ++ rest.flatMap (chunkRows k (pairsOf k (chunkRows k oldIns now1 t)
            ++ pairsOf k (joinedNewRows k oldIns now1 rest)) now2) := by
          simp [joinedNewRows, pairsOf, List.flatMap_cons]
      _ = chunkRows k (pairsOf k (chunkRows k oldIns now1 t)) now2 t
          ++ rest.flatMap (chunkRows k (pairsOf k (joinedNewRows k oldIns now1 rest)) now2) := by
          rw [chunkRows_drop_right now2 hdropB]
          congr 1
          exact List.flatMap_congr (fun t' ht' => chunkRows_drop_left now2 (hdropA t' ht'))
      _ = (chunkRows k oldIns now1 t).map (updTo now2)
          ++ (joinedNewRows k oldIns now1 rest).map (updTo now2) := by
          rw [chunkRows_pairs_self hst]
          congr 1
          exact ih hselfrest hnd.2
      _ = (joinedNewRows k oldIns now1 (t :: rest)).map (updTo now2) := by
          simp [joinedNewRows, List.flatMap_cons]

theorem upsertKeyed_table (tn k : String) (ndf : List Row)
    (table : List StoredRow) (now : Int) :
    (upsertKeyed tn k ndf table now).table
      = table.filter (fun o => !hitKeys k (ndf.map (batchKey k)) o)
        ++ joinedNewRows k (pairsOf k (table.filter (hitKeys k (ndf.map (batchKey k)))))
            now ndf := rfl

theorem upsert_keyed_unfold (tn : String) (cols : List String) (rows : List Row)
    (keyCol : Option String) (table : List StoredRow) (now : Int) (k : String)
    (hrows : rows ≠ []) (hk : keyOf keyCol cols = some k) :
    upsert_table_from_rows tn cols rows keyCol false table now
      = upsertKeyed tn k (rows.map (normRow tn cols)) table now := by
  have he : rows.isEmpty = false := by
    cases rows with
    | nil => exact absurd rfl hrows
    | cons a l => rfl
  simp [upsert_table_from_rows, he, hk]

theorem joined_all_hit {k : String} {ndf : List Row} {oldIns : List (Value × Int)}
    {now : Int} (hself : ∀ t ∈ ndf, sqlEq (batchKey k t) (batchKey k t) = true) :
    ∀ r ∈ joinedNewRows k oldIns now ndf,
      hitKeys k (ndf.map (batchKey k)) r = true := by
  intro r hr
  rcases joinedNewRows_data_mem hr with ⟨t, ht, hd⟩
  have hkey : rowKey k r = batchKey k t := by simp [rowKey, batchKey, hd]
  simp only [hitKeys]
  exact List.any_eq_true.mpr ⟨batchKey k t, List.mem_map_of_mem _ ht,
    by rw [hkey]; exact hself t ht⟩

theorem remaining_not_hit (k : String) (keys : List Value) (table : List StoredRow) :
    ∀ r ∈ table.filter (fun o => !hitKeys k keys o), hitKeys k keys r = false :=
  fun r hr => by simpa using (List.mem_filter.mp hr).2

theorem filter_hit_of_parts (k : String) (keys : List Value)
    (rem N1 : List StoredRow)
    (hrem : ∀ r ∈ rem, hitKeys k keys r = false)
    (hN1 : ∀ r ∈ N1, hitKeys k keys r = true) :
    (rem ++ N1).filter (hitKeys k keys) = N1 ∧
    (rem ++ N1).filter (fun o => !hitKeys k keys o) = rem := by
  constructor
  · rw [List.filter_append,
      List.filter_eq_nil_iff.mpr (fun r hr => by simp [hrem r hr]),
      List.nil_append]
    exact List.filter_eq_self.mpr hN1
  · rw [List.filter_append,
      List.filter_eq_self.mpr (fun r hr => by simp [hrem r hr]),
      List.filter_eq_nil_iff.mpr (fun r hr => by simp [hN1 r hr]),
      List.append_nil]

theorem upsertKeyed_twice (tn k : String) (ndf : List Row)
    (table : List StoredRow) (now1 now2 : Int)
    (hself : ∀ t ∈ ndf, sqlEq (batchKey k t) (batchKey k t) = true)
    (hnodup : (ndf.map (batchKey k)).Nodup) :
    (upsertKeyed tn k ndf (upsertKeyed tn k ndf table now1).table now2).table
      = (upsertKeyed tn k ndf table now1).table.map
          (fun r => if hitKeys k (ndf.map (batchKey k)) r then updTo now2 r else r) := by
  simp only [upsertKeyed_table]
  obtain ⟨hf1, hf2⟩ := filter_hit_of_parts k (ndf.map (batchKey k)) _ _
    (remaining_not_hit k (ndf.map (batchKey k)) table) (joined_all_hit hself)
  rw [hf1, hf2, joined_refresh ndf _ now1 now2 hself hnodup, List.map_append]
  congr 1
  · symm
    have h : ∀ r ∈ table.filter (fun o => !hitKeys k (ndf.map (batchKey k)) o),
        (if hitKeys k (ndf.map (batchKey k)) r then updTo now2 r else r) = r :=
      fun r hr => by rw [remaining_not_hit k (ndf.map (batchKey k)) table r hr]; simp
    rw [List.map_congr_left h]
    simp
  · symm
    have h : ∀ r ∈ joinedNewRows k (pairsOf k
        (table.filter (hitKeys k (ndf.map (batchKey k))))) now1 ndf,
        (if hitKeys k (ndf.map (batchKey k)) r then updTo now2 r else r) = updTo now2 r :=
      fun r hr => by rw [joined_all_hit hself r hr]; simp
    rw [List.map_congr_left h]

/-- C1 counterexample: a non-empty batch of two rows sharing one key
(two cast credits of the same movie — the normal shape for the credit
relations), upserted twice into an initially empty `movie_cast` table
with key column `movie_id`.  The first run stores 2 rows; the second run
stores 4: the `LEFT JOIN old_inserted_at` fans out over the two captured
pairs per key, so the row count for the batch's keys is *not* unchanged
and the stored rows differ by more than the `updated_at` timestamp. -/
theorem c1_counterexample :
    (upsert_table_from_rows "movie_cast" MOVIE_CAST_COLS
        [[("movie_id", Value.int 5), ("person_id", Value.int 1)],
         [("movie_id", Value.int 5), ("person_id", Value.int 2)]]
        (some "movie_id") false [] 10).table.length = 2 ∧
    (upsert_table_from_rows "movie_cast" MOVIE_CAST_COLS
        [[("movie_id", Value.int 5), ("person_id", Value.int 1)],
         [("movie_id", Value.int 5), ("person_id", Value.int 2)]]
        (some "movie_id") false
        (upsert_table_from_rows "movie_cast" MOVIE_CAST_COLS
          [[("movie_id", Value.int 5), ("person_id", Value.int 1)],
           [("movie_id", Value.int 5), ("person_id", Value.int 2)]]
          (some "movie_id") false [] 10).table 20).table.length = 4 :=
  ⟨rfl, rfl⟩

/-- C1 (amended): running the Upsert Engine twice with the same non-empty
batch, *provided every batch row's key is non-NULL and the batch keys are
pairwise distinct* (as for the entity relations keyed by their primary
id), yields exactly the stored rows of the single run with only
`updated_at` advanced on the batch's rows: the data columns, every
`inserted_at`, and the row count are all unchanged by the second run.
Without key distinctness the claim fails (see the counterexample). -/
theorem c1_upsert_idempotent_amended
    (tn : String) (cols : List String) (rows : List Row) (keyCol : Option String)
    (table : List StoredRow) (now1 now2 : Int) (k : String)
    (hrows : rows ≠ [])
    (hk : keyOf keyCol cols = some k)
    (hself : ∀ t ∈ rows.map (normRow tn cols),
        sqlEq (batchKey k t) (batchKey k t) = true)
    (hnodup : ((rows.map (normRow tn cols)).map (batchKey k)).Nodup) :
    (upsert_table_from_rows tn cols rows keyCol false
        (upsert_table_from_rows tn cols rows keyCol false table now1).table now2).table
      = (upsert_table_from_rows tn cols rows keyCol false table now1).table.map
          (fun r => if hitKeys k ((rows.map (normRow tn cols)).map (batchKey k)) r
                    then updTo now2 r else r) ∧
    (upsert_table_from_rows tn cols rows keyCol false
        (upsert_table_from_rows tn cols rows keyCol false table now1).table now2).table.length
      = (upsert_table_from_rows tn cols rows keyCol false table now1).table.length ∧
    (upsert_table_from_rows tn cols rows keyCol false
        (upsert_table_from_rows tn cols rows keyCol false table now1).table now2).table.map
          (fun r => (r.data, r.insertedAt))
      = (upsert_table_from_rows tn cols rows keyCol false table now1).table.map
          (fun r => (r.data, r.insertedAt)) := by
  rw [upsert_keyed_unfold tn cols rows keyCol table now1 k hrows hk]
  rw [upsert_keyed_unfold tn cols rows keyCol
    (upsertKeyed tn k (rows.map (normRow tn cols)) table now1).table now2 k hrows hk]
  have hmain := upsertKeyed_twice tn k (rows.map (normRow tn cols)) table now1 now2
    hself hnodup
  refine ⟨hmain, ?_, ?_⟩
  · rw [hmain, List.length_map]
  · rw [hmain, List.map_map]
    refine List.map_congr_left (fun r hr => ?_)
    simp only [Function.comp_apply]
    split_ifs <;> rfl

/-- Witness for the amended C1: one cast row with a distinct non-NULL
key, upserted twice into an empty table at times 10 then 20. -/
theorem c1_upsert_idempotent_amended_witness :
    (upsert_table_from_rows "movie_cast" MOVIE_CAST_COLS
        [[("movie_id", Value.int 5), ("person_id", Value.int 1)]] (some "movie_id") false
        (upsert_table_from_rows "movie_cast" MOVIE_CAST_COLS
          [[("movie_id", Value.int 5), ("person_id", Value.int 1)]]
          (some "movie_id") false [] 10).table 20).table
      = (upsert_table_from_rows "movie_cast" MOVIE_CAST_COLS
          [[("movie_id", Value.int 5), ("person_id", Value.int 1)]]
          (some "movie_id") false [] 10).table.map
          (fun r => if hitKeys "movie_id"
              (([[("movie_id", Value.int 5), ("person_id", Value.int 1)]].map
                (normRow "movie_cast" MOVIE_CAST_COLS)).map (batchKey "movie_id")) r
            then updTo 20 r else r) :=
  (c1_upsert_idempotent_amended "movie_cast" MOVIE_CAST_COLS
    [[("movie_id", Value.int 5), ("person_id", Value.int 1)]] (some "movie_id")
    [] 10 20 "movie_id"
    (List.cons_ne_nil _ _) rfl
    (by intro t ht
        rcases List.mem_singleton.mp ht with rfl
        rfl)
    (List.nodup_singleton _)).1

-- ---------------------------------------------------------------------
-- Change Detector (`call_changes`): pagination loop over a response
-- oracle
-- ---------------------------------------------------------------------

/-- Outcome of one `requests.get` + `raise_for_status` + `.json()` against
the changes endpoint: a JSON body (`results` entries, modelled as their
optional `id` fields, plus an optional `total_pages`), an `HTTPError`
carrying a status code, or any other exception. -/
inductive Resp where
  | ok (results : List (Option Nat)) (totalPages : Option Int)
  | httpErr (status : Nat)
  | exn
deriving Repr, DecidableEq

/-- Result of the pagination loop: the accumulated ids, the page number
of every request issued (in order), and whether the loop exited on its
own (`finished = false` means it was still running when the modelling
fuel — a bound on the number of requests — ran out). -/
structure FetchOut where
  ids : List Nat
  pages : List Nat
  finished : Bool
deriving Repr, DecidableEq

/-- The `while page <= max_pages` loop body of `call_changes`, driven by
the oracle `o` giving the outcome of the `reqIdx`-th HTTP request.
On success: extend ids with the entries having an `id`, read
`total_pages` (default 1 when absent, per `data.get('total_pages') or
data.get('total_pages', 1)`), break if `not results or page >=
total_pages`, else advance the page.  On HTTP status 429: sleep and
`continue` — the page counter is *not* advanced and no retry counter
exists.  On any other HTTP error or exception: break, keeping the
partial ids. -/
def callChangesAux (o : Nat → Resp) (maxPages : Nat) :
    Nat → Nat → Nat → List Nat → List Nat → FetchOut
  | 0, _, page, acc, accP =>
    if page > maxPages then ⟨acc, accP, true⟩ else ⟨acc, accP, false⟩
  | fuel + 1, reqIdx, page, acc, accP =>
    if page > maxPages then ⟨acc, accP, true⟩
    else
      match o reqIdx with
      | .ok results totalPages =>
        let acc' := acc ++ results.filterMap id
        let tp := totalPages.getD 1
        if results.isEmpty ∨ (page : Int) ≥ tp then ⟨acc', accP ++ [page], true⟩
        else callChangesAux o maxPages fuel (reqIdx + 1) (page + 1) acc' (accP ++ [page])
      | .httpErr status =>
        if status = 429 then
          callChangesAux o maxPages fuel (reqIdx + 1) page acc (accP ++ [page])
        else ⟨acc, accP ++ [page], true⟩
      | .exn => ⟨acc, accP ++ [page], true⟩

/-- `call_changes(endpoint, start_date, end_date, max_pages=1000)`:
the endpoint and date window are absorbed into the response oracle;
`fuel` bounds how many requests the model runs the loop for. -/
def call_changes (o : Nat → Resp) (maxPages fuel : Nat) : FetchOut :=
  callChangesAux o maxPages fuel 0 1 [] []

theorem aux_all429 (o : Nat → Resp) (maxP : Nat) (h : ∀ i, o i = .httpErr 429) :
    ∀ fuel reqIdx page acc accP, page ≤ maxP →
      callChangesAux o maxP fuel reqIdx page acc accP
        = ⟨acc, accP ++ List.replicate fuel page, false⟩ := by
  intro fuel
  induction fuel with
  | zero =>
    intro reqIdx page acc accP hp
    simp [callChangesAux, Nat.not_lt.mpr hp]
  | succ fuel ih =>
    intro reqIdx page acc accP hp
    simp only [callChangesAux, h reqIdx]
    rw [if_neg (Nat.not_lt.mpr hp), if_pos trivial,
      ih (reqIdx + 1) page acc (accP ++ [page]) hp]
    simp [List.replicate_succ]

/-- One 429 step: the next request targets the same page. -/
theorem aux_step_429 (o : Nat → Resp) (maxP fuel reqIdx page : Nat)
    (acc accP : List Nat) (hp : page ≤ maxP) (h : o reqIdx = .httpErr 429) :
    callChangesAux o maxP (fuel + 1) reqIdx page acc accP
      = callChangesAux o maxP fuel (reqIdx + 1) page acc (accP ++ [page]) := by
  simp only [callChangesAux, h]
  rw [if_neg (Nat.not_lt.mpr hp), if_pos trivial]

theorem aux_429_prefix (maxP : Nat) :
    ∀ (n : Nat) (o : Nat → Resp) (reqIdx page : Nat) (acc accP : List Nat),
      page ≤ maxP →
      (∀ j, j < n → o (reqIdx + j) = .httpErr 429) →
      o (reqIdx + n) = .ok [] (some 1) →
      callChangesAux o maxP (n + 1) reqIdx page acc accP
        = ⟨acc, accP ++ List.replicate (n + 1) page, true⟩ := by
  intro n
  induction n with
  | zero =>
    intro o reqIdx page acc accP hp h429 hok
    have hok' : o reqIdx = .ok [] (some 1) := by simpa using hok
    simp only [callChangesAux, hok']
    rw [if_neg (Nat.not_lt.mpr hp)]
    simp
  | succ n ih =>
    intro o reqIdx page acc accP hp h429 hok
    have h0 : o reqIdx = .httpErr 429 := by simpa using h429 0 (by omega)
    rw [aux_step_429 o maxP (n + 1) reqIdx page acc accP hp h0]
    rw [ih o (reqIdx + 1) page acc (accP ++ [page]) hp
      (fun j hj => by
        have := h429 (j + 1) (by omega)
        simpa [show reqIdx + (j + 1) = reqIdx + 1 + j by omega] using this)
      (by simpa [show reqIdx + (n + 1) = reqIdx + 1 + n by omega] using hok)]
    simp [List.replicate_succ]

/-- C2 counterexample: an upstream that rate-limits the first two
requests and then succeeds.  The Change Detector issues three requests
for page 1 — it retries the same page *twice*, not "exactly once", before
proceeding; the retry is unbounded, contrary to the claim. -/
theorem c2_counterexample :
    (call_changes (fun i => if i < 2 then Resp.httpErr 429 else Resp.ok [] (some 1))
        1000 10).pages = [1, 1, 1] ∧
    (call_changes (fun i => if i < 2 then Resp.httpErr 429 else Resp.ok [] (some 1))
        1000 10).pages.count 1 = 3 ∧
    (call_changes (fun i => if i < 2 then Resp.httpErr 429 else Resp.ok [] (some 1))
        1000 10).finished = true :=
  ⟨rfl, rfl, rfl⟩

/-- C2 (amended): on a rate-limit (HTTP 429) response the Change Detector
pauses and retries the *same* page, but the retry is not bounded by one:
the `continue` carries no attempt counter, so the same page is re-
requested after every consecutive 429 — for every `n`, an upstream that
rate-limits the first `n` requests makes the detector issue `n + 1`
requests all for page 1 before proceeding. -/
theorem c2_rate_limit_retry_unbounded :
    (∀ (o : Nat → Resp) (maxP fuel reqIdx page : Nat) (acc accP : List Nat),
        page ≤ maxP → o reqIdx = .httpErr 429 →
        callChangesAux o maxP (fuel + 1) reqIdx page acc accP
          = callChangesAux o maxP fuel (reqIdx + 1) page acc (accP ++ [page])) ∧
    (∀ n : Nat,
        (call_changes (fun i => if i < n then Resp.httpErr 429 else Resp.ok [] (some 1))
            1000 (n + 1)).pages = List.replicate (n + 1) 1 ∧
        (call_changes (fun i => if i < n then Resp.httpErr 429 else Resp.ok [] (some 1))
            1000 (n + 1)).finished = true) := by
  constructor
  · exact fun o maxP fuel reqIdx page acc accP hp h429 =>
      aux_step_429 o maxP fuel reqIdx page acc accP hp h429
  · intro n
    have h := aux_429_prefix 1000 n
      (fun i => if i < n then Resp.httpErr 429 else Resp.ok [] (some 1))
      0 1 [] [] (by omega)
      (fun j hj => by
        show (if 0 + j < n then Resp.httpErr 429 else Resp.ok [] (some 1))
          = Resp.httpErr 429
        rw [if_pos (by omega)])
      (by
        show (if 0 + n < n then Resp.httpErr 429 else Resp.ok [] (some 1))
          = Resp.ok [] (some 1)
        rw [if_neg (by omega)])
    rw [call_changes, h]
    exact ⟨by simp, rfl⟩

/-- Witness for the amended C2 at `n = 2`: two consecutive rate limits
produce three requests for page 1, then the sweep proceeds. -/
theorem c2_rate_limit_retry_unbounded_witness :
    (call_changes (fun i => if i < 2 then Resp.httpErr 429 else Resp.ok [] (some 1))
        1000 3).pages = List.replicate 3 1 ∧
    (call_changes (fun i => if i < 2 then Resp.httpErr 429 else Resp.ok [] (some 1))
        1000 3).finished = true :=
  c2_rate_limit_retry_unbounded.2 2

/-- C3 counterexample: an upstream that answers every request with HTTP
429.  After 1001 requests — strictly more than the `max_pages = 1000`
sanity limit — the pagination loop has issued 1001 fetches (all for page
1) and is still running: the sanity limit does not bound the number of
page fetches, and with unbounded rate-limiting the loop never
terminates. -/
theorem c3_counterexample :
    (call_changes (fun _ => Resp.httpErr 429) 1000 1001).finished = false ∧
    (call_changes (fun _ => Resp.httpErr 429) 1000 1001).pages.length = 1001 := by
  have h := aux_all429 (fun _ => Resp.httpErr 429) 1000 (fun i => rfl)
    1001 0 1 [] [] (by omega)
  rw [call_changes, h]
  exact ⟨rfl, by rw [List.nil_append, List.length_replicate]⟩

theorem aux_no429_fin (o : Nat → Resp) (maxP : Nat)
    (h : ∀ i, o i ≠ .httpErr 429) :
    ∀ fuel reqIdx page acc accP,
      maxP + 1 ≤ fuel + page →
      (callChangesAux o maxP fuel reqIdx page acc accP).finished = true ∧
      (callChangesAux o maxP fuel reqIdx page acc accP).pages.length
        ≤ accP.length + (maxP + 1 - page) := by
  intro fuel
  induction fuel with
  | zero =>
    intro reqIdx page acc accP hfp
    have hp : page > maxP := by omega
    simp [callChangesAux, hp]
  | succ fuel ih =>
    intro reqIdx page acc accP hfp
    by_cases hp : page > maxP
    · simp [callChangesAux, hp]
    · have hple : page ≤ maxP := by omega
      cases ho : o reqIdx with
      | ok results totalPages =>
        simp only [callChangesAux, ho]
        rw [if_neg hp]
        by_cases hbrk : results.isEmpty = true ∨ (page : Int) ≥ totalPages.getD 1
        · rw [if_pos hbrk]
          refine ⟨rfl, ?_⟩
          simp
          omega
        · rw [if_neg hbrk]
          have := ih (reqIdx + 1) (page + 1) (acc ++ results.filterMap id)
            (accP ++ [page]) (by omega)
          refine ⟨this.1, ?_⟩
          refine le_trans this.2 ?_
          simp
          omega
      | httpErr status =>
        have hs : ¬ status = 429 := by
          intro hs
          exact h reqIdx (by rw [ho, hs])
        simp only [callChangesAux, ho]
        rw [if_neg hp, if_neg hs]
        refine ⟨rfl, ?_⟩
        simp
        omega
      | exn =>
        simp only [callChangesAux, ho]
        rw [if_neg hp]
        refine ⟨rfl, ?_⟩
        simp
        omega

/-- C3 (amended): the pagination loop of `call_changes` terminates after
at most `max_pages` fetches *provided no request is answered with a
rate-limit (HTTP 429)*: every non-429 response either ends the loop or
advances the page, which is capped by the sanity limit.  With repeated
429 responses the same page is refetched without bound and the loop need
never terminate (see the counterexample). -/
theorem c3_pagination_bounded_amended (o : Nat → Resp) (maxP : Nat)
    (h : ∀ i, o i ≠ .httpErr 429) :
    (call_changes o maxP (maxP + 1)).finished = true ∧
    (call_changes o maxP (maxP + 1)).pages.length ≤ maxP := by
  have := aux_no429_fin o maxP h (maxP + 1) 0 1 [] [] (by omega)
  rw [call_changes]
  refine ⟨this.1, ?_⟩
  have h2 := this.2
  simpa using h2

/-- Witness for the amended C3: a well-behaved upstream answering one
page with one id terminates within the 1000-fetch sanity limit. -/
theorem c3_pagination_bounded_amended_witness :
    (call_changes (fun _ => Resp.ok [some 7] (some 1)) 1000 1001).finished = true ∧
    (call_changes (fun _ => Resp.ok [some 7] (some 1)) 1000 1001).pages.length ≤ 1000 :=
  c3_pagination_bounded_amended (fun _ => Resp.ok [some 7] (some 1)) 1000
    (fun _ hc => Resp.noConfusion hc)

-- ---------------------------------------------------------------------
-- Detail Fetcher and the per-identifier run loop
-- ---------------------------------------------------------------------

/-- `fetch_movie_detail_and_credits(movie_id)`: two sequential
`requests.get(...).json()` calls inside one `try`.  Each oracle value is
`some payload` for a call that returns, `none` for a call that raises;
an exception in either call is caught and `(None, None)` is returned
(if the first call raises, the second is never made). -/
def fetch_movie_detail_and_credits (detailResp creditsResp : Option Value) :
    Option Value × Option Value :=
  match detailResp with
  | none => (none, none)
  | some d =>
    match creditsResp with
    | none => (none, none)
    | some c => (some d, some c)

/-- `fetch_tv_detail_and_aggregate(tv_id)`: identical structure over the
tv detail and aggregate-credits endpoints. -/
def fetch_tv_detail_and_aggregate (detailResp aggResp : Option Value) :
    Option Value × Option Value :=
  match detailResp with
  | none => (none, none)
  | some d =>
    match aggResp with
    | none => (none, none)
    | some c => (some d, some c)

/-- Python `v.get(f)` on a JSON object (None when missing; the run loop
only ever applies it to the dict payloads of the upstream API). -/
def pyGet (v : Value) (f : String) : Value :=
  match v with
  | .dict kvs => (List.lookup f kvs).getD .null
  | _ => .null

/-- `credits.get('cast', [])` (resp. `'crew'`), iterated by the loop. -/
def creditEntries (credits : Value) (f : String) : List Value :=
  match credits with
  | .dict kvs =>
    match List.lookup f kvs with
    | some (.list vs) => vs
    | _ => []
  | _ => []

/-- `detail_row = {k: (str(v) if isinstance(v,(list,dict)) else v) for
k,v in detail.items()}` followed by `detail_row.setdefault('id', mid)`. -/
def detailItems (mid : Nat) (detail : Value) : Row :=
  let items := match detail with
    | .dict kvs => kvs.map (fun p => (p.1, coerceVal p.2))
    | _ => []
  if (List.lookup "id" items).isSome then items else items ++ [("id", Value.int mid)]

/-- `{k: detail_row.get(k) for k in MOVIES_COLS if k in MOVIES_COLS}`
(the inner membership test is a tautology in the source). -/
def movieRowOf (mid : Nat) (detail : Value) : Row :=
  MOVIES_COLS.map (fun k => (k, (List.lookup k (detailItems mid detail)).getD .null))

def movieCastRow (mid : Nat) (c : Value) : Row :=
  [("movie_id", Value.int mid), ("person_id", pyGet c "id"),
   ("name", pyGet c "name"), ("credit_id", pyGet c "credit_id"),
   ("character", pyGet c "character"), ("cast_order", pyGet c "cast_order"),
   ("gender", pyGet c "gender"), ("profile_path", pyGet c "profile_path"),
   ("known_for_department", pyGet c "known_for_department"),
   ("popularity", pyGet c "popularity"),
   ("original_name", pyGet c "original_name"), ("cast_id", pyGet c "cast_id")]

def movieCrewRow (mid : Nat) (c : Value) : Row :=
  [("movie_id", Value.int mid), ("person_id", pyGet c "id"),
   ("name", pyGet c "name"), ("credit_id", pyGet c "credit_id"),
   ("gender", pyGet c "gender"), ("profile_path", pyGet c "profile_path"),
   ("known_for_department", pyGet c "known_for_department"),
   ("popularity", pyGet c "popularity"),
   ("original_name", pyGet c "original_name"), ("adult", pyGet c "adult"),
   ("department", pyGet c "department"), ("job", pyGet c "job")]

def tvRowOf (tid : Nat) (detail : Value) : Row :=
  TV_SHOWS_COLS.map (fun k => (k, (List.lookup k (detailItems tid detail)).getD .null))

def tvCastRow (tid : Nat) (c : Value) : Row :=
  [("tv_id", Value.int tid), ("person_id", pyGet c "id"),
   ("name", pyGet c "name"), ("credit_id", pyGet c "credit_id"),
   ("character", pyGet c "character"), ("cast_order", pyGet c "cast_order"),
   ("gender", pyGet c "gender"), ("profile_path", pyGet c "profile_path"),
   ("known_for_department", pyGet c "known_for_department"),
   ("popularity", pyGet c "popularity"),
   ("original_name", pyGet c "original_name"),
   ("roles", Value.str (pyStr (pyGet c "roles"))),
   ("total_episode_count", pyGet c "total_episode_count"),
   ("cast_id", pyGet c "cast_id"),
   ("also_known_as", if (pyGet c "also_known_as").truthy
      then Value.str (pyStr (pyGet c "also_known_as")) else Value.null)]

/-- The movie sweep of `run`: for each changed id, fetch detail and
credits through `fetch_movie_detail_and_credits`; `if not detail:
continue` skips the id (fetch failure or falsy payload); otherwise one
movies row and the fanned-out cast/crew rows are accumulated.  The pair
`(some detail, none)` cannot be produced by the fetcher and is covered by
the skip branch.  Progress printing and `time.sleep` are I/O no-ops. -/
def processMovieIds (dO cO : Nat → Option Value) :
    List Nat → List Row × List Row × List Row
  | [] => ([], [], [])
  | mid :: rest =>
    let res := processMovieIds dO cO rest
    match fetch_movie_detail_and_credits (dO mid) (cO mid) with
    | (some d, some c) =>
      if d.truthy then
        (movieRowOf mid d :: res.1,
         (creditEntries c "cast").map (movieCastRow mid) ++ res.2.1,
         (creditEntries c "crew").map (movieCrewRow mid) ++ res.2.2)
      else res
    | _ => res

/-- The tv sweep of `run`, same structure over
`fetch_tv_detail_and_aggregate`. -/
def processTvIds (dO cO : Nat → Option Value) :
    List Nat → List Row × List Row
  | [] => ([], [])
  | tid :: rest =>
    let res := processTvIds dO cO rest
    match fetch_tv_detail_and_aggregate (dO tid) (cO tid) with
    | (some d, some c) =>
      if d.truthy then
        (tvRowOf tid d :: res.1,
         (creditEntries c "cast").map (tvCastRow tid) ++ res.2)
      else res
    | _ => res

/-- C4: (a) each Detail Fetcher returns either both payloads or the
failure pair `(None, None)` — never a detail without credits; (b) when
the fetch fails for an identifier, the run loop processes the sweep
exactly as if that identifier were absent: nothing from it reaches the
Upsert Engine batches and the rest of the sweep is unaffected (in
particular no failure aborts the sweep, the loops being total
functions). -/
theorem c4_detail_fetcher_all_or_nothing :
    (∀ d c : Option Value,
        fetch_movie_detail_and_credits d c = (none, none) ∨
        ∃ dv cv, fetch_movie_detail_and_credits d c = (some dv, some cv)) ∧
    (∀ d c : Option Value,
        fetch_tv_detail_and_aggregate d c = (none, none) ∨
        ∃ dv cv, fetch_tv_detail_and_aggregate d c = (some dv, some cv)) ∧
    (∀ (dO cO : Nat → Option Value) (pre post : List Nat) (bad : Nat),
        fetch_movie_detail_and_credits (dO bad) (cO bad) = (none, none) →
        processMovieIds dO cO (pre ++ bad :: post)
          = processMovieIds dO cO (pre ++ post)) ∧
    (∀ (dO cO : Nat → Option Value) (pre post : List Nat) (bad : Nat),
        fetch_tv_detail_and_aggregate (dO bad) (cO bad) = (none, none) →
        processTvIds dO cO (pre ++ bad :: post)
          = processTvIds dO cO (pre ++ post)) := by
  refine ⟨?_, ?_, ?_, ?_⟩
  · intro d c
    cases d with
    | none => left; rfl
    | some dv =>
      cases c with
      | none => left; rfl
      | some cv => right; exact ⟨dv, cv, rfl⟩
  · intro d c
    cases d with
    | none => left; rfl
    | some dv =>
      cases c with
      | none => left; rfl
      | some cv => right; exact ⟨dv, cv, rfl⟩
  · intro dO cO pre post bad hbad
    induction pre with
    | nil =>
      simp only [List.nil_append, processMovieIds, hbad]
    | cons x xs ih =>
      simp only [List.cons_append, processMovieIds, List.append_eq, ih]
  · intro dO cO pre post bad hbad
    induction pre with
    | nil =>
      simp only [List.nil_append, processTvIds, hbad]
    | cons x xs ih =>
      simp only [List.cons_append, processTvIds, List.append_eq, ih]

/-- Witness for C4: a failing movie detail call for id 34 between the
successful ids 12 and 56 — the sweep result equals the sweep without 34,
and a concrete failure pair instance. -/
theorem c4_detail_fetcher_all_or_nothing_witness :
    (fetch_movie_detail_and_credits none (some (Value.dict [])) = (none, none) ∨
      ∃ dv cv, fetch_movie_detail_and_credits none (some (Value.dict []))
        = (some dv, some cv)) ∧
    processMovieIds
        (fun i => if i = 34 then none else some (Value.dict [("id", Value.int (Int.ofNat i)), ("title", Value.str "t")]))
        (fun _ => some (Value.dict [("cast", Value.list [])]))
        [12, 34, 56]
      = processMovieIds
          (fun i => if i = 34 then none else some (Value.dict [("id", Value.int (Int.ofNat i)), ("title", Value.str "t")]))
          (fun _ => some (Value.dict [("cast", Value.list [])]))
          [12, 56] :=
  ⟨c4_detail_fetcher_all_or_nothing.1 none (some (Value.dict [])),
   c4_detail_fetcher_all_or_nothing.2.2.1
     (fun i => if i = 34 then none else some (Value.dict [("id", Value.int (Int.ofNat i)), ("title", Value.str "t")]))
     (fun _ => some (Value.dict [("cast", Value.list [])]))
     [12] [56] 34 rfl⟩

-- ---------------------------------------------------------------------
-- Watermark Store (`get_last_run` / `set_last_run` over `last_updates`)
-- ---------------------------------------------------------------------

/-- A wall-clock instant at second granularity (the microseconds and the
UTC offset of `datetime` are elided; the job runs entirely in UTC). -/
structure DT where
  year : Nat
  month : Nat
  day : Nat
  hour : Nat
  minute : Nat
  second : Nat
deriving DecidableEq, Repr

/-- Field ranges `datetime` enforces (year 1–9999, valid calendar day). -/
def validDT (dt : DT) : Bool :=
  decide (1 ≤ dt.year ∧ dt.year ≤ 9999 ∧ 1 ≤ dt.month ∧ dt.month ≤ 12 ∧
    1 ≤ dt.day ∧ dt.day ≤ daysInMonth dt.year dt.month ∧
    dt.hour ≤ 23 ∧ dt.minute ≤ 59 ∧ dt.second ≤ 59)

def digitChar (n : Nat) : Char := Char.ofNat (48 + n)

def digits2 (n : Nat) : List Char := [digitChar (n / 10), digitChar (n % 10)]

def digits4 (n : Nat) : List Char := digits2 (n / 100) ++ digits2 (n % 100)

/-- The characters of `dt.isoformat()` (second granularity):
`YYYY-MM-DDTHH:MM:SS`. -/
def dtChars (dt : DT) : List Char :=
  digits4 dt.year ++ '-' :: (digits2 dt.month ++ '-' :: (digits2 dt.day
    ++ 'T' :: (digits2 dt.hour ++ ':' :: (digits2 dt.minute
    ++ ':' :: digits2 dt.second))))

def fmtDT (dt : DT) : String := String.mk (dtChars dt)

def val2 (a b : Char) : Nat := digitVal a * 10 + digitVal b

/-- Parse the exact `%Y-%m-%dT%H:%M:%S` shape (also the core of
`datetime.fromisoformat`), with `datetime`'s range validation. -/
def parseTs19 (cs : List Char) : Option DT :=
  match cs with
  | [y1, y2, y3, y4, s1, m1, m2, s2, d1, d2, s3, h1, h2, s4, i1, i2, s5, x1, x2] =>
    if (s1 = '-' ∧ s2 = '-' ∧ s3 = 'T' ∧ s4 = ':' ∧ s5 = ':') ∧
       (y1.isDigit ∧ y2.isDigit ∧ y3.isDigit ∧ y4.isDigit) ∧
       (m1.isDigit ∧ m2.isDigit ∧ d1.isDigit ∧ d2.isDigit) ∧
       (h1.isDigit ∧ h2.isDigit ∧ i1.isDigit ∧ i2.isDigit ∧ x1.isDigit ∧ x2.isDigit)
    then
      let dt : DT := ⟨val2 y1 y2 * 100 + val2 y3 y4, val2 m1 m2, val2 d1 d2,
        val2 h1 h2, val2 i1 i2, val2 x1 x2⟩
      if validDT dt then some dt else none
    else none
  | _ => none

/-- Parse the date-only `YYYY-MM-DD` shape `fromisoformat` also accepts
(midnight). -/
def parseDate10 (cs : List Char) : Option DT :=
  match cs with
  | [y1, y2, y3, y4, s1, m1, m2, s2, d1, d2] =>
    if (s1 = '-' ∧ s2 = '-') ∧
       (y1.isDigit ∧ y2.isDigit ∧ y3.isDigit ∧ y4.isDigit) ∧
       (m1.isDigit ∧ m2.isDigit ∧ d1.isDigit ∧ d2.isDigit)
    then
      let dt : DT := ⟨val2 y1 y2 * 100 + val2 y3 y4, val2 m1 m2, val2 d1 d2, 0, 0, 0⟩
      if validDT dt then some dt else none
    else none
  | _ => none

/-- `datetime.fromisoformat(row[0])` at this model's granularity. -/
def fromisoformatParse (s : String) : Option DT :=
  match parseTs19 s.toList with
  | some dt => some dt
  | none => parseDate10 s.toList

/-- `datetime.strptime(row[0], "%Y-%m-%dT%H:%M:%S")`. -/
def strptimeParse (s : String) : Option DT := parseTs19 s.toList

/-- `datetime.now(timezone.utc) - timedelta(days=7)`: for a valid
instant the day borrows across at most one month boundary. -/
def subDays7 (now : DT) : DT :=
  if 7 < now.day then { now with day := now.day - 7 }
  else
    let pm := if now.month = 1 then 12 else now.month - 1
    let py := if now.month = 1 then now.year - 1 else now.year
    { now with year := py, month := pm, day := daysInMonth py pm + now.day - 7 }

/-- One row of `last_updates` under the reading assumption `get_last_run`
itself makes: the fetched `last_run` is text to be parsed
(`fromisoformat`/`strptime` accept only `str`).  Against the live schema
this assumption is wrong — `ensure_tables` declares `last_run TIMESTAMP`
and the duckdb client returns `datetime.datetime` objects, never strings
— so the parse-success branch of `get_last_run` below is dead code; see
`WMEntryTs` / `get_last_run_ts` for the TIMESTAMP-faithful read path.
The string view remains the right model of the failure path that the
`except` handlers implement (a non-`str` or malformed value falls
through to the default). -/
structure WMEntry where
  jobName : String
  lastRun : Option String
deriving DecidableEq, Repr

/-- Byte-wise (here: character-wise) lexicographic `≤` — the ordering the
database applies to the stored `last_run` text in `ORDER BY`. -/
def lexLe : List Char → List Char → Bool
  | [], _ => true
  | _ :: _, [] => false
  | a :: as, b :: bs => if a < b then true else if a = b then lexLe as bs else false

/-- `ORDER BY last_run DESC` comparison with NULLS LAST (DuckDB's
default null ordering): NULL sorts after every value on DESC, i.e. it is
smallest for the purpose of taking the maximum. -/
def optStrLe (a b : Option String) : Bool :=
  match a, b with
  | none, _ => true
  | some _, none => false
  | some s1, some s2 => lexLe s1.toList s2.toList

/-- Maximum of a list of nullable strings under `optStrLe` (`ORDER BY
... DESC LIMIT 1`); `none` for an empty result set (no row). -/
def listMax : List (Option String) → Option (Option String)
  | [] => none
  | v :: rest =>
    match listMax rest with
    | none => some v
    | some m => if optStrLe m v then some v else some m

/-- `SELECT last_run FROM last_updates WHERE job_name = ? ORDER BY
last_run DESC LIMIT 1`. -/
def selectLastRun (store : List WMEntry) (job : String) : Option (Option String) :=
  listMax ((store.filter (fun e => e.jobName = job)).map (fun e => e.lastRun))

/-- `get_last_run(con, job_name)` over the string view of the column:
take the most recent `last_run` row; if a non-null value is present, try
`fromisoformat`, then `strptime("%Y-%m-%dT%H:%M:%S")`; on no row, a NULL
value, or both parses failing, fall back to `now - timedelta(days=7)`.
(Against the live TIMESTAMP schema both parse attempts always fail with
`TypeError`, so only the fallback path is reachable; see
`get_last_run_ts`.) -/
def get_last_run (store : List WMEntry) (job : String) (now : DT) : DT :=
  match selectLastRun store job with
  | some (some s) =>
    match fromisoformatParse s with
    | some dt => dt
    | none =>
      match strptimeParse s with
      | some dt => dt
      | none => subDays7 now
  | _ => subDays7 now

/-- `set_last_run(con, ts, job_name)`: append-only INSERT of
`ts.isoformat()`. -/
def set_last_run (store : List WMEntry) (job : String) (ts : DT) : List WMEntry :=
  store ++ [⟨job, some (fmtDT ts)⟩]

/-- Lexicographic order on the six fields — chronological order of
instants. -/
def DT.leb (a b : DT) : Bool :=
  if a.year ≠ b.year then a.year < b.year
  else if a.month ≠ b.month then a.month < b.month
  else if a.day ≠ b.day then a.day < b.day
  else if a.hour ≠ b.hour then a.hour < b.hour
  else if a.minute ≠ b.minute then a.minute < b.minute
  else a.second ≤ b.second

/-- One row of `last_updates` with `last_run` at its declared column
type: the live schema (`ensure_tables`) declares `last_run TIMESTAMP`,
so the database stores an instant (or NULL) and `ORDER BY last_run
DESC` compares timestamps. -/
structure WMEntryTs where
  jobName : String
  lastRun : Option DT

/-- `ORDER BY last_run DESC` comparison on the TIMESTAMP column, NULLS
LAST (NULL smallest for the purpose of taking the maximum). -/
def optTsLe (a b : Option DT) : Bool :=
  match a, b with
  | none, _ => true
  | some _, none => false
  | some d1, some d2 => DT.leb d1 d2

/-- Maximum of the selected TIMESTAMP values (`ORDER BY ... DESC LIMIT
1`); `none` for an empty result set. -/
def listMaxTs : List (Option DT) → Option (Option DT)
  | [] => none
  | v :: rest =>
    match listMaxTs rest with
    | none => some v
    | some m => if optTsLe m v then some v else some m

/-- `SELECT last_run FROM last_updates WHERE job_name = ? ORDER BY
last_run DESC LIMIT 1` over the TIMESTAMP column. -/
def selectLastRunTs (store : List WMEntryTs) (job : String) : Option (Option DT) :=
  listMaxTs ((store.filter (fun e => e.jobName = job)).map (fun e => e.lastRun))

/-- `datetime.fromisoformat(row[0])` where `row[0]` is the
`datetime.datetime` object the duckdb client returns for a TIMESTAMP
column: `fromisoformat` accepts only `str` arguments and raises
`TypeError` on a datetime object, so this call never succeeds. -/
def fromisoformatOnDatetime (_ : DT) : Option DT := none

/-- `datetime.strptime(row[0], "%Y-%m-%dT%H:%M:%S")` on the same
datetime object: `strptime` also accepts only `str` and raises
`TypeError`. -/
def strptimeOnDatetime (_ : DT) : Option DT := none

/-- `get_last_run` against the live TIMESTAMP schema: the selected
`row[0]` is a `datetime.datetime` object, both parse attempts raise
`TypeError` into their `except` handlers, and the function falls back to
`now - timedelta(days=7)` — also when entries exist. -/
def get_last_run_ts (store : List WMEntryTs) (job : String) (now : DT) : DT :=
  match selectLastRunTs store job with
  | some (some dt0) =>
    match fromisoformatOnDatetime dt0 with
    | some dt => dt
    | none =>
      match strptimeOnDatetime dt0 with
      | some dt => dt
      | none => subDays7 now
  | _ => subDays7 now

/-- `set_last_run(con, ts)` against the TIMESTAMP column: the bound
`ts.isoformat()` text is cast by the database to the instant it
denotes. -/
def set_last_run_ts (store : List WMEntryTs) (job : String) (ts : DT) : List WMEntryTs :=
  store ++ [⟨job, some ts⟩]

theorem digitChar_isDigit : ∀ n, n < 10 → (digitChar n).isDigit = true := by decide

theorem digitVal_digitChar : ∀ n, n < 10 → digitVal (digitChar n) = n := by decide

theorem digitChar_lt_iff : ∀ a, a < 10 → ∀ b, b < 10 →
    ((digitChar a < digitChar b) ↔ a < b) := by decide

theorem digitChar_eq_iff : ∀ a, a < 10 → ∀ b, b < 10 →
    ((digitChar a = digitChar b) ↔ a = b) := by decide

theorem val2_digits {a : Nat} (h : a < 100) :
    val2 (digitChar (a / 10)) (digitChar (a % 10)) = a := by
  have h1 : a / 10 < 10 := by omega
  have h2 : a % 10 < 10 := by omega
  rw [val2, digitVal_digitChar _ h1, digitVal_digitChar _ h2]
  omega

theorem daysInMonth_le (y m : Nat) : daysInMonth y m ≤ 31 := by
  unfold daysInMonth
  split_ifs <;> omega

theorem lexLe_cons_same (c : Char) (as bs : List Char) :
    lexLe (c :: as) (c :: bs) = lexLe as bs := by
  simp [lexLe, lt_irrefl]

theorem lexLe_digits2 {a b : Nat} (ha : a < 100) (hb : b < 100)
    (ra rb : List Char) :
    lexLe (digits2 a ++ ra) (digits2 b ++ rb)
      = (if a < b then true else if a = b then lexLe ra rb else false) := by
  have ha1 : a / 10 < 10 := by omega
  have ha2 : a % 10 < 10 := by omega
  have hb1 : b / 10 < 10 := by omega
  have hb2 : b % 10 < 10 := by omega
  simp only [digits2, List.cons_append, lexLe]
  rcases Nat.lt_trichotomy (a / 10) (b / 10) with h | h | h
  · rw [if_pos ((digitChar_lt_iff _ ha1 _ hb1).mpr h)]
    rw [if_pos (by omega)]
  · have hne : ¬ digitChar (a / 10) < digitChar (b / 10) := by
      rw [digitChar_lt_iff _ ha1 _ hb1]; omega
    rw [if_neg hne, if_pos ((digitChar_eq_iff _ ha1 _ hb1).mpr h)]
    rcases Nat.lt_trichotomy (a % 10) (b % 10) with h2 | h2 | h2
    · rw [if_pos ((digitChar_lt_iff _ ha2 _ hb2).mpr h2)]
      rw [if_pos (by omega)]
    · have hne2 : ¬ digitChar (a % 10) < digitChar (b % 10) := by
        rw [digitChar_lt_iff _ ha2 _ hb2]; omega
      have hab : a = b := by omega
      rw [if_neg hne2, if_pos ((digitChar_eq_iff _ ha2 _ hb2).mpr h2),
        if_neg (by omega : ¬ a < b), if_pos hab]
      rfl
    · have hne2 : ¬ digitChar (a % 10) < digitChar (b % 10) := by
        rw [digitChar_lt_iff _ ha2 _ hb2]; omega
      have hne3 : ¬ digitChar (a % 10) = digitChar (b % 10) := by
        rw [digitChar_eq_iff _ ha2 _ hb2]; omega
      rw [if_neg hne2, if_neg hne3, if_neg (by omega : ¬ a < b),
        if_neg (by omega : ¬ a = b)]
  · have hne : ¬ digitChar (a / 10) < digitChar (b / 10) := by
      rw [digitChar_lt_iff _ ha1 _ hb1]; omega
    have hne3 : ¬ digitChar (a / 10) = digitChar (b / 10) := by
      rw [digitChar_eq_iff _ ha1 _ hb1]; omega
    rw [if_neg hne, if_neg hne3, if_neg (by omega : ¬ a < b),
      if_neg (by omega : ¬ a = b)]

theorem lexLe_digits4 {a b : Nat} (ha : a < 10000) (hb : b < 10000)
    (ra rb : List Char) :
    lexLe (digits4 a ++ ra) (digits4 b ++ rb)
      = (if a < b then true else if a = b then lexLe ra rb else false) := by
  simp only [digits4, List.append_assoc]
  rw [lexLe_digits2 (by omega) (by omega)]
  rcases Nat.lt_trichotomy (a / 100) (b / 100) with h | h | h
  · rw [if_pos h, if_pos (by omega)]
  · rw [if_neg (by omega), if_pos h,
      lexLe_digits2 (by omega : a % 100 < 100) (by omega : b % 100 < 100)]
    rcases Nat.lt_trichotomy (a % 100) (b % 100) with h2 | h2 | h2
    · rw [if_pos h2, if_pos (by omega)]
    · rw [if_neg (by omega), if_pos h2, if_neg (by omega : ¬ a < b),
        if_pos (by omega)]
    · rw [if_neg (by omega), if_neg (by omega), if_neg (by omega : ¬ a < b),
        if_neg (by omega : ¬ a = b)]
  · rw [if_neg (by omega), if_neg (by omega), if_neg (by omega : ¬ a < b),
      if_neg (by omega : ¬ a = b)]

theorem lexLe_digits2_nil {a b : Nat} (ha : a < 100) (hb : b < 100) :
    lexLe (digits2 a) (digits2 b) = decide (a ≤ b) := by
  have h := lexLe_digits2 ha hb [] []
  rw [List.append_nil, List.append_nil] at h
  rw [h]
  rcases Nat.lt_trichotomy a b with h2 | h2 | h2
  · rw [if_pos h2]; simp; omega
  · rw [if_neg (by omega), if_pos h2]; simp [lexLe]; omega
  · rw [if_neg (by omega), if_neg (by omega)]; simp; omega

theorem validDT_bounds {dt : DT} (h : validDT dt = true) :
    1 ≤ dt.year ∧ dt.year ≤ 9999 ∧ 1 ≤ dt.month ∧ dt.month ≤ 12 ∧
    1 ≤ dt.day ∧ dt.day ≤ 31 ∧ dt.hour ≤ 23 ∧ dt.minute ≤ 59 ∧ dt.second ≤ 59 := by
  have h' := of_decide_eq_true h
  have hd := daysInMonth_le dt.year dt.month
  obtain ⟨h1, h2, h3, h4, h5, h6, h7, h8, h9⟩ := h'
  exact ⟨h1, h2, h3, h4, h5, le_trans h6 hd, h7, h8, h9⟩

theorem step_iff (x y : Nat) (rl rr : Bool) (hr : x = y → rl = rr) :
    (if x < y then true else if x = y then rl else false)
      = (if x ≠ y then decide (x < y) else rr) := by
  rcases Nat.lt_trichotomy x y with h | h | h
  · rw [if_pos h, if_pos (by omega : x ≠ y)]
    exact (decide_eq_true h).symm
  · subst h
    rw [if_neg (lt_irrefl x), if_pos rfl, if_neg (by omega : ¬ x ≠ x)]
    exact hr rfl
  · rw [if_neg (by omega : ¬ x < y), if_neg (by omega : ¬ x = y),
      if_pos (by omega : x ≠ y)]
    exact (decide_eq_false (by omega)).symm

/-- For range-valid instants, lexicographic order of the rendered
timestamps coincides with chronological order. -/
theorem lexLe_dtChars {a b : DT} (ha : validDT a = true) (hb : validDT b = true) :
    lexLe (dtChars a) (dtChars b) = DT.leb a b := by
  obtain ⟨ha1, ha2, ha3, ha4, ha5, ha6, ha7, ha8, ha9⟩ := validDT_bounds ha
  obtain ⟨hb1, hb2, hb3, hb4, hb5, hb6, hb7, hb8, hb9⟩ := validDT_bounds hb
  simp only [dtChars]
  rw [lexLe_digits4 (by omega) (by omega), lexLe_cons_same,
    lexLe_digits2 (by omega : a.month < 100) (by omega : b.month < 100),
    lexLe_cons_same,
    lexLe_digits2 (by omega : a.day < 100) (by omega : b.day < 100),
    lexLe_cons_same,
    lexLe_digits2 (by omega : a.hour < 100) (by omega : b.hour < 100),
    lexLe_cons_same,
    lexLe_digits2 (by omega : a.minute < 100) (by omega : b.minute < 100),
    lexLe_cons_same,
    lexLe_digits2_nil (by omega : a.second < 100) (by omega : b.second < 100)]
  exact step_iff a.year b.year _ _ (fun _ =>
    step_iff a.month b.month _ _ (fun _ =>
      step_iff a.day b.day _ _ (fun _ =>
        step_iff a.hour b.hour _ _ (fun _ =>
          step_iff a.minute b.minute _ _ (fun _ => rfl)))))

/-- Round-trip: the rendered timestamp of a valid instant parses back to
that instant. -/
theorem parseTs19_dtChars {dt : DT} (h : validDT dt = true) :
    parseTs19 (dtChars dt) = some dt := by
  obtain ⟨y, m, d, hh, mi, s⟩ := dt
  have hb := validDT_bounds h
  have h1 : 1 ≤ y := hb.1
  have h2 : y ≤ 9999 := hb.2.1
  have h3 : 1 ≤ m := hb.2.2.1
  have h4 : m ≤ 12 := hb.2.2.2.1
  have h5 : 1 ≤ d := hb.2.2.2.2.1
  have h6 : d ≤ 31 := hb.2.2.2.2.2.1
  have h7 : hh ≤ 23 := hb.2.2.2.2.2.2.1
  have h8 : mi ≤ 59 := hb.2.2.2.2.2.2.2.1
  have h9 : s ≤ 59 := hb.2.2.2.2.2.2.2.2
  show parseTs19 [digitChar (y / 100 / 10), digitChar (y / 100 % 10),
    digitChar (y % 100 / 10), digitChar (y % 100 % 10), '-',
    digitChar (m / 10), digitChar (m % 10), '-',
    digitChar (d / 10), digitChar (d % 10), 'T',
    digitChar (hh / 10), digitChar (hh % 10), ':',
    digitChar (mi / 10), digitChar (mi % 10), ':',
    digitChar (s / 10), digitChar (s % 10)] = some ⟨y, m, d, hh, mi, s⟩
  rw [parseTs19]
  rw [if_pos ⟨⟨rfl, rfl, rfl, rfl, rfl⟩,
    ⟨digitChar_isDigit _ (by omega), digitChar_isDigit _ (by omega),
     digitChar_isDigit _ (by omega), digitChar_isDigit _ (by omega)⟩,
    ⟨digitChar_isDigit _ (by omega), digitChar_isDigit _ (by omega),
     digitChar_isDigit _ (by omega), digitChar_isDigit _ (by omega)⟩,
    ⟨digitChar_isDigit _ (by omega), digitChar_isDigit _ (by omega),
     digitChar_isDigit _ (by omega), digitChar_isDigit _ (by omega),
     digitChar_isDigit _ (by omega), digitChar_isDigit _ (by omega)⟩⟩]
  have hy : val2 (digitChar (y / 100 / 10)) (digitChar (y / 100 % 10)) * 100
      + val2 (digitChar (y % 100 / 10)) (digitChar (y % 100 % 10)) = y := by
    rw [val2_digits (by omega : y / 100 < 100),
      val2_digits (by omega : y % 100 < 100)]
    omega
  have hm : val2 (digitChar (m / 10)) (digitChar (m % 10)) = m :=
    val2_digits (by omega)
  have hd : val2 (digitChar (d / 10)) (digitChar (d % 10)) = d :=
    val2_digits (by omega)
  have hhh : val2 (digitChar (hh / 10)) (digitChar (hh % 10)) = hh :=
    val2_digits (by omega)
  have hmi : val2 (digitChar (mi / 10)) (digitChar (mi % 10)) = mi :=
    val2_digits (by omega)
  have hs : val2 (digitChar (s / 10)) (digitChar (s % 10)) = s :=
    val2_digits (by omega)
  simp only [hy, hm, hd, hhh, hmi, hs]
  rw [if_pos h]

theorem fromisoformat_fmt {dt : DT} (h : validDT dt = true) :
    fromisoformatParse (fmtDT dt) = some dt := by
  have ht : (fmtDT dt).toList = dtChars dt := rfl
  rw [fromisoformatParse, ht, parseTs19_dtChars h]

theorem lexLe_refl : ∀ l : List Char, lexLe l l = true := by
  intro l
  induction l with
  | nil => rfl
  | cons a as ih => rw [lexLe_cons_same]; exact ih

theorem lexLe_total : ∀ as bs : List Char, lexLe as bs = true ∨ lexLe bs as = true := by
  intro as
  induction as with
  | nil => intro bs; left; rfl
  | cons a as ih =>
    intro bs
    cases bs with
    | nil => right; rfl
    | cons b bs =>
      rcases lt_trichotomy a b with h | h | h
      · left; simp [lexLe, h]
      · subst h
        rcases ih bs with h2 | h2
        · left; rw [lexLe_cons_same]; exact h2
        · right; rw [lexLe_cons_same]; exact h2
      · right; simp [lexLe, h]

theorem lexLe_trans : ∀ as bs cs : List Char,
    lexLe as bs = true → lexLe bs cs = true → lexLe as cs = true := by
  intro as
  induction as with
  | nil => intro bs cs h1 h2; rfl
  | cons a as ih =>
    intro bs cs h1 h2
    cases bs with
    | nil => simp [lexLe] at h1
    | cons b bs =>
      cases cs with
      | nil => simp [lexLe] at h2
      | cons c cs =>
        by_cases hab : a < b
        · by_cases hbc : b < c
          · simp [lexLe, lt_trans hab hbc]
          · by_cases hbc2 : b = c
            · subst hbc2; simp [lexLe, hab]
            · rw [lexLe, if_neg hbc, if_neg hbc2] at h2
              simp at h2
        · by_cases hab2 : a = b
          · subst hab2
            rw [lexLe_cons_same] at h1
            by_cases hbc : a < c
            · simp [lexLe, hbc]
            · by_cases hbc2 : a = c
              · subst hbc2
                rw [lexLe_cons_same] at h2
                rw [lexLe_cons_same]
                exact ih bs cs h1 h2
              · rw [lexLe, if_neg hbc, if_neg hbc2] at h2
                simp at h2
          · rw [lexLe, if_neg hab, if_neg hab2] at h1
            simp at h1

theorem optStrLe_refl (a : Option String) : optStrLe a a = true := by
  cases a with
  | none => rfl
  | some s => exact lexLe_refl s.toList

theorem optStrLe_total (a b : Option String) :
    optStrLe a b = true ∨ optStrLe b a = true := by
  cases a with
  | none => left; rfl
  | some s1 =>
    cases b with
    | none => right; rfl
    | some s2 => exact lexLe_total s1.toList s2.toList

theorem optStrLe_trans {a b c : Option String} (h1 : optStrLe a b = true)
    (h2 : optStrLe b c = true) : optStrLe a c = true := by
  cases a with
  | none => rfl
  | some s1 =>
    cases b with
    | none => simp [optStrLe] at h1
    | some s2 =>
      cases c with
      | none => simp [optStrLe] at h2
      | some s3 => exact lexLe_trans _ _ _ h1 h2

theorem listMax_none_iff (l : List (Option String)) :
    listMax l = none ↔ l = [] := by
  cases l with
  | nil => simp [listMax]
  | cons x xs =>
    simp only [listMax]
    cases listMax xs <;> simp
    split <;> simp

/-- The selected maximum is an element and dominates every element. -/
theorem listMax_spec : ∀ (l : List (Option String)) (v : Option String),
    listMax l = some v → v ∈ l ∧ ∀ w ∈ l, optStrLe w v = true := by
  intro l
  induction l with
  | nil => intro v h; cases h
  | cons x xs ih =>
    intro v h
    simp only [listMax] at h
    cases hm : listMax xs with
    | none =>
      simp only [hm] at h
      have hxs : xs = [] := (listMax_none_iff xs).mp hm
      subst hxs
      cases h
      refine ⟨List.mem_singleton_self _, ?_⟩
      intro w hw
      rcases List.mem_singleton.mp hw with rfl
      exact optStrLe_refl _
    | some m =>
      simp only [hm] at h
      obtain ⟨hmem, hall⟩ := ih m hm
      by_cases hc : optStrLe m x = true
      · rw [if_pos hc] at h
        cases h
        refine ⟨List.mem_cons_self _ _, ?_⟩
        intro w hw
        rcases List.mem_cons.mp hw with rfl | hw
        · exact optStrLe_refl _
        · exact optStrLe_trans (hall w hw) hc
      · rw [if_neg hc] at h
        injection h with h
        subst h
        refine ⟨List.mem_cons_of_mem _ hmem, ?_⟩
        intro w hw
        rcases List.mem_cons.mp hw with rfl | hw
        · rcases optStrLe_total w m with h2 | h2
          · exact h2
          · exact absurd h2 hc
        · exact hall w hw

/-- C8 (code bug): against the live schema — `last_run` is a TIMESTAMP
column, fetched by the duckdb client as a `datetime.datetime` object —
`get_last_run` never returns a recorded completion time: both parse
attempts raise `TypeError` and are swallowed, so for every store, job
name and `now` the result is the 7-day default lookback, even when
entries exist.  Concretely, a store whose one recorded completion is
2024-01-05 12:30:00 still yields `now - 7 days`, which is not the
recorded instant. -/
theorem c8_get_last_run_always_default :
    (∀ (store : List WMEntryTs) (job : String) (now : DT),
        get_last_run_ts store job now = subDays7 now) ∧
    get_last_run_ts [⟨"weekly_update", some ⟨2024, 1, 5, 12, 30, 0⟩⟩]
        "weekly_update" ⟨2024, 2, 1, 0, 0, 0⟩ = subDays7 ⟨2024, 2, 1, 0, 0, 0⟩ ∧
    subDays7 (⟨2024, 2, 1, 0, 0, 0⟩ : DT) ≠ (⟨2024, 1, 5, 12, 30, 0⟩ : DT) := by
  have hall : ∀ (store : List WMEntryTs) (job : String) (now : DT),
      get_last_run_ts store job now = subDays7 now := by
    intro store job now
    unfold get_last_run_ts
    cases hsel : selectLastRunTs store job with
    | none => rfl
    | some v =>
      cases v with
      | none => rfl
      | some dt0 => rfl
  exact ⟨hall, hall _ _ _, by decide⟩

/-- C10 (implicit): a stored watermark value that is non-null but parses
neither with `fromisoformat` nor with `strptime("%Y-%m-%dT%H:%M:%S")`
does not raise — both attempts fail inside their `except` handlers — and
`get_last_run` silently falls back to the same 7-day default lookback
used when the watermark is absent (second conjunct). -/
theorem c10_unparseable_watermark_defaults (store : List WMEntry) (job : String)
    (now : DT) (s : String)
    (h1 : fromisoformatParse s = none) (h2 : strptimeParse s = none)
    (hsel : selectLastRun store job = some (some s)) :
    get_last_run store job now = subDays7 now ∧
    get_last_run [] job now = subDays7 now := by
  constructor
  · simp only [get_last_run, hsel, h1, h2]
  · rfl

/-- Witness for C10: the unparseable stored value `"not-a-date"`. -/
theorem c10_unparseable_watermark_defaults_witness :
    get_last_run [⟨"weekly_update", some "not-a-date"⟩] "weekly_update"
        ⟨2024, 1, 1, 0, 0, 0⟩ = subDays7 ⟨2024, 1, 1, 0, 0, 0⟩ ∧
    get_last_run [] "weekly_update" ⟨2024, 1, 1, 0, 0, 0⟩
      = subDays7 ⟨2024, 1, 1, 0, 0, 0⟩ :=
  c10_unparseable_watermark_defaults
    [⟨"weekly_update", some "not-a-date"⟩] "weekly_update"
    ⟨2024, 1, 1, 0, 0, 0⟩ "not-a-date" rfl rfl rfl

-- ---------------------------------------------------------------------
-- The storage phase of `run` (five upserts + watermark write)
-- ---------------------------------------------------------------------

/-- The five target relations plus the watermark table. -/
structure DBState where
  movies : List StoredRow
  movie_cast : List StoredRow
  movie_crew : List StoredRow
  tv_shows : List StoredRow
  tv_show_cast_crew : List StoredRow
  last_updates : List WMEntry

/-- The upsert phase of `run`: the five `upsert_table_from_rows` calls in
source order, followed by `set_last_run(con, now)` exactly when the
dry-run flag is not set (`if not dry_run`); in dry-run mode the job only
prints that it would update `last_run`.  `now` is the SQL
`CURRENT_TIMESTAMP`, `nowTs` the Python `now` written to the
watermark. -/
def runStorePhase (moviesRows movieCastRows movieCrewRows tvRows tvCastRows : List Row)
    (dryRun : Bool) (db : DBState) (now : Int) (nowTs : DT) : DBState × List Effect :=
  let r1 := upsert_table_from_rows "movies" MOVIES_COLS moviesRows
    (some "id") dryRun db.movies now
  let r2 := upsert_table_from_rows "movie_cast" MOVIE_CAST_COLS movieCastRows
    (some "movie_id") dryRun db.movie_cast now
  let r3 := upsert_table_from_rows "movie_crew" MOVIE_CREW_COLS movieCrewRows
    (some "movie_id") dryRun db.movie_crew now
  let r4 := upsert_table_from_rows "tv_shows" TV_SHOWS_COLS tvRows
    (some "id") dryRun db.tv_shows now
  let r5 := upsert_table_from_rows "tv_show_cast_crew" TV_CAST_COLS tvCastRows
    (some "tv_id") dryRun db.tv_show_cast_crew now
  if ¬ dryRun then
    (⟨r1.table, r2.table, r3.table, r4.table, r5.table,
      set_last_run db.last_updates "weekly_update" nowTs⟩,
     r1.effects ++ r2.effects ++ r3.effects ++ r4.effects ++ r5.effects
       ++ [.setWatermark])
  else
    (⟨r1.table, r2.table, r3.table, r4.table, r5.table, db.last_updates⟩,
     r1.effects ++ r2.effects ++ r3.effects ++ r4.effects ++ r5.effects)

theorem upsert_dry (tn : String) (cols : List String) (rows : List Row)
    (keyCol : Option String) (table : List StoredRow) (now : Int) :
    upsert_table_from_rows tn cols rows keyCol true table now
      = ⟨table, if rows.isEmpty then [] else [.previewCSV tn]⟩ := by
  by_cases h : rows.isEmpty
  · simp [upsert_table_from_rows, h]
  · simp [upsert_table_from_rows, h]

theorem mem_ite_preview {c : Prop} [Decidable c] {t : String} {e : Effect}
    (h : e ∈ (if c then ([] : List Effect) else [Effect.previewCSV t])) :
    e = Effect.previewCSV t := by
  split at h
  · cases h
  · exact List.mem_singleton.mp h

theorem ite_preview_of_ne {rows : List Row} {t : String} (h : rows ≠ []) :
    (if rows.isEmpty then ([] : List Effect) else [Effect.previewCSV t])
      = [Effect.previewCSV t] := by
  rw [if_neg]
  simp [List.isEmpty_iff, h]

/-- C9: with the dry-run flag set, the storage phase leaves every
relation and the watermark table unchanged, executes no delete or insert
and does not call `set_last_run` (no `setWatermark` effect); the only
effects are preview-CSV writes, and each relation with a non-empty batch
gets one. -/
theorem c9_dry_run_frame (moviesRows movieCastRows movieCrewRows tvRows
    tvCastRows : List Row) (db : DBState) (now : Int) (nowTs : DT) :
    (runStorePhase moviesRows movieCastRows movieCrewRows tvRows tvCastRows
        true db now nowTs).1 = db ∧
    (∀ e ∈ (runStorePhase moviesRows movieCastRows movieCrewRows tvRows
        tvCastRows true db now nowTs).2, ∃ t, e = Effect.previewCSV t) ∧
    Effect.setWatermark ∉ (runStorePhase moviesRows movieCastRows movieCrewRows
        tvRows tvCastRows true db now nowTs).2 ∧
    (moviesRows ≠ [] → Effect.previewCSV "movies" ∈ (runStorePhase moviesRows
        movieCastRows movieCrewRows tvRows tvCastRows true db now nowTs).2) ∧
    (movieCastRows ≠ [] → Effect.previewCSV "movie_cast" ∈ (runStorePhase
        moviesRows movieCastRows movieCrewRows tvRows tvCastRows true db now nowTs).2) ∧
    (movieCrewRows ≠ [] → Effect.previewCSV "movie_crew" ∈ (runStorePhase
        moviesRows movieCastRows movieCrewRows tvRows tvCastRows true db now nowTs).2) ∧
    (tvRows ≠ [] → Effect.previewCSV "tv_shows" ∈ (runStorePhase moviesRows
        movieCastRows movieCrewRows tvRows tvCastRows true db now nowTs).2) ∧
    (tvCastRows ≠ [] → Effect.previewCSV "tv_show_cast_crew" ∈ (runStorePhase
        moviesRows movieCastRows movieCrewRows tvRows tvCastRows true db now nowTs).2) := by
  have hphase : runStorePhase moviesRows movieCastRows movieCrewRows tvRows
      tvCastRows true db now nowTs
    = (db,
       (if moviesRows.isEmpty then [] else [Effect.previewCSV "movies"])
       ++ ((if movieCastRows.isEmpty then [] else [Effect.previewCSV "movie_cast"])
       ++ ((if movieCrewRows.isEmpty then [] else [Effect.previewCSV "movie_crew"])
       ++ ((if tvRows.isEmpty then [] else [Effect.previewCSV "tv_shows"])
       ++ (if tvCastRows.isEmpty then [] else [Effect.previewCSV "tv_show_cast_crew"]))))) := by
    simp [runStorePhase, upsert_dry]
  rw [hphase]
  refine ⟨rfl, ?_, ?_, ?_, ?_, ?_, ?_, ?_⟩
  · intro e he
    rcases List.mem_append.mp he with h | h
    · exact ⟨"movies", mem_ite_preview h⟩
    rcases List.mem_append.mp h with h | h
    · exact ⟨"movie_cast", mem_ite_preview h⟩
    rcases List.mem_append.mp h with h | h
    · exact ⟨"movie_crew", mem_ite_preview h⟩
    rcases List.mem_append.mp h with h | h
    · exact ⟨"tv_shows", mem_ite_preview h⟩
    · exact ⟨"tv_show_cast_crew", mem_ite_preview h⟩
  · intro hmem
    rcases List.mem_append.mp hmem with h | h
    · exact Effect.noConfusion (mem_ite_preview h)
    rcases List.mem_append.mp h with h | h
    · exact Effect.noConfusion (mem_ite_preview h)
    rcases List.mem_append.mp h with h | h
    · exact Effect.noConfusion (mem_ite_preview h)
    rcases List.mem_append.mp h with h | h
    · exact Effect.noConfusion (mem_ite_preview h)
    · exact Effect.noConfusion (mem_ite_preview h)
  · intro h
    exact List.mem_append.mpr (Or.inl
      (by rw [ite_preview_of_ne h]; exact List.mem_singleton_self _))
  · intro h
    exact List.mem_append.mpr (Or.inr (List.mem_append.mpr (Or.inl
      (by rw [ite_preview_of_ne h]; exact List.mem_singleton_self _))))
  · intro h
    exact List.mem_append.mpr (Or.inr (List.mem_append.mpr (Or.inr
      (List.mem_append.mpr (Or.inl
        (by rw [ite_preview_of_ne h]; exact List.mem_singleton_self _))))))
  · intro h
    exact List.mem_append.mpr (Or.inr (List.mem_append.mpr (Or.inr
      (List.mem_append.mpr (Or.inr (List.mem_append.mpr (Or.inl
        (by rw [ite_preview_of_ne h]; exact List.mem_singleton_self _))))))))
  · intro h
    exact List.mem_append.mpr (Or.inr (List.mem_append.mpr (Or.inr
      (List.mem_append.mpr (Or.inr (List.mem_append.mpr (Or.inr
        (by rw [ite_preview_of_ne h]; exact List.mem_singleton_self _))))))))

/-- Witness for C9: non-empty movies and tv batches in dry-run mode over
an empty database: the state is unchanged, the movies preview is
emitted, and the watermark is not advanced. -/
theorem c9_dry_run_frame_witness :
    (runStorePhase [[("id", Value.int 1)]] [] [] [[("id", Value.int 2)]] []
        true ⟨[], [], [], [], [], []⟩ 5 ⟨2024, 1, 1, 0, 0, 0⟩).1
      = (⟨[], [], [], [], [], []⟩ : DBState) ∧
    Effect.previewCSV "movies" ∈ (runStorePhase [[("id", Value.int 1)]] [] []
        [[("id", Value.int 2)]] [] true ⟨[], [], [], [], [], []⟩ 5
        ⟨2024, 1, 1, 0, 0, 0⟩).2 ∧
    Effect.setWatermark ∉ (runStorePhase [[("id", Value.int 1)]] [] []
        [[("id", Value.int 2)]] [] true ⟨[], [], [], [], [], []⟩ 5
        ⟨2024, 1, 1, 0, 0, 0⟩).2 :=
  ⟨(c9_dry_run_frame [[("id", Value.int 1)]] [] [] [[("id", Value.int 2)]] []
      ⟨[], [], [], [], [], []⟩ 5 ⟨2024, 1, 1, 0, 0, 0⟩).1,
   (c9_dry_run_frame [[("id", Value.int 1)]] [] [] [[("id", Value.int 2)]] []
      ⟨[], [], [], [], [], []⟩ 5 ⟨2024, 1, 1, 0, 0, 0⟩).2.2.2.1
     (List.cons_ne_nil _ _),
   (c9_dry_run_frame [[("id", Value.int 1)]] [] [] [[("id", Value.int 2)]] []
      ⟨[], [], [], [], [], []⟩ 5 ⟨2024, 1, 1, 0, 0, 0⟩).2.2.1⟩
